import Mathlib

/-!
# Verification of the firewheel audio-graph engine

A shallow embedding of the graph store, the graph compiler (Kahn topological
sort and SSA-style buffer allocation) and the realtime processor of the
firewheel repository, together with proofs and refutations of the frozen
specification claims.

Conventions of the embedding:

* `thunderdome` arena contents are modelled as Lean lists in slot
  (= iteration) order; generational indices are abstracted to `Nat` ids that
  are unique over the lifetime of a graph (fresh ids come from counters, as
  slots in the source are never reused while the entry is alive).
* Rust machine integers are modelled as `Nat`/`Int` with explicit reductions
  modulo `2 ^ 64` where overflow matters.
* Rust panics (failed `assert!`, failed `.expect`, arena indexing of a missing
  key, arithmetic overflow in debug builds) are modelled as error values
  (`Except`/`Option`), never as definable behaviour.
* `Rc` reference-counted buffer handles are modelled by tagging every
  `BufferAllocator.acquire` result with a fresh `serial` number (the identity
  of the `Rc` allocation); the strong count of a handle is the number of
  copies of its serial held in the assignment table and in the not yet drained
  `buffers_to_release` list, plus the copy being released.
-/

namespace Firewheel

/-! ## Silence masks (firewheel-core/src/silence_mask.rs) -/

/-- `u64::MAX`. -/
def u64Max : Nat := 2 ^ 64 - 1

/-- `SilenceMask(pub u64)`: bit-per-channel silence hint. -/
structure SilenceMask where
  mask : Nat
deriving DecidableEq, Repr

namespace SilenceMask

/-- `SilenceMask::NONE_SILENT`. -/
def NONE_SILENT : SilenceMask := ⟨0⟩

/-- `SilenceMask::MONO_SILENT`. -/
def MONO_SILENT : SilenceMask := ⟨1⟩

/-- `SilenceMask::STEREO_SILENT`. -/
def STEREO_SILENT : SilenceMask := ⟨3⟩

/-- Rust `0b1u64 << i`.  For `i ≥ 64` the shift overflows, which is a panic in
debug builds (and wraps the shift amount in release builds); we model the
overflow as `none`. -/
def shlOne (i : Nat) : Option Nat :=
  if i < 64 then some (2 ^ i) else none

/-- `SilenceMask::new_all_silent`. -/
def newAllSilent (numChannels : Nat) : SilenceMask :=
  if numChannels ≥ 64 then ⟨u64Max⟩ else ⟨2 ^ numChannels - 1⟩

/-- `SilenceMask::is_channel_silent`: `self.0 & (0b1 << i) != 0`.
`none` models the shift overflow panic for `i ≥ 64`. -/
def isChannelSilent (m : SilenceMask) (i : Nat) : Option Bool :=
  (shlOne i).map (fun b => m.mask &&& b != 0)

/-- `SilenceMask::any_channel_silent`. -/
def anyChannelSilent (m : SilenceMask) (numChannels : Nat) : Bool :=
  if numChannels ≥ 64 then m.mask != 0
  else m.mask &&& (2 ^ numChannels - 1) != 0

/-- `SilenceMask::all_channels_silent`. -/
def allChannelsSilent (m : SilenceMask) (numChannels : Nat) : Bool :=
  if numChannels ≥ 64 then m.mask == u64Max
  else m.mask &&& (2 ^ numChannels - 1) == 2 ^ numChannels - 1

/-- `SilenceMask::set_channel`.  Rust `!(0b1 << i)` on `u64` is complement
within 64 bits, i.e. `u64Max ^^^ b`. -/
def setChannel (m : SilenceMask) (i : Nat) (silent : Bool) : Option SilenceMask :=
  (shlOne i).map (fun b =>
    if silent then ⟨m.mask ||| b⟩ else ⟨m.mask &&& (u64Max ^^^ b)⟩)

end SilenceMask

/-! ## Graph data model (firewheel-graph/src/graph/compiler.rs) -/

/-- `NodeEntry<N>`: the id and port counts of a node.  The polymorphic weight
(the boxed `AudioNode`) and the cached `incoming`/`outgoing` edge lists are
not stored: the weight is irrelevant to scheduling, and the edge lists are
recomputed from the edge arena by `GraphIR::preprocess` on every compile (we
compute them by filtering, see `Graph.incoming` / `Graph.outgoing`). -/
structure NodeEntry where
  id : Nat
  numInputs : Nat
  numOutputs : Nat
deriving DecidableEq, Repr

/-- `Edge`: a connection from a source node and output port to a destination
node and input port, with its own id. -/
structure Edge where
  id : Nat
  srcNode : Nat
  srcPort : Nat
  dstNode : Nat
  dstPort : Nat
deriving DecidableEq, Repr

/-- The compiler's view of a graph: the node arena and the edge arena in
iteration order, plus the sentinel ids. -/
structure Graph where
  nodes : List NodeEntry
  edges : List Edge
  graphInId : Nat
  graphOutId : Nat
deriving DecidableEq, Repr

namespace Graph

/-- `node_entry.incoming` as rebuilt by `GraphIR::preprocess`: the edges whose
destination is this node, in edge-arena iteration order. -/
def incoming (g : Graph) (n : Nat) : List Edge :=
  g.edges.filter (fun e => e.dstNode = n)

/-- `node_entry.outgoing` as rebuilt by `GraphIR::preprocess`: the edges whose
source is this node, in edge-arena iteration order. -/
def outgoing (g : Graph) (n : Nat) : List Edge :=
  g.edges.filter (fun e => e.srcNode = n)

/-- The list of node ids in arena iteration order. -/
def nodeIds (g : Graph) : List Nat :=
  g.nodes.map (fun n => n.id)

/-- Arena lookup `self.nodes.get(id)`. -/
def findNode (g : Graph) (n : Nat) : Option NodeEntry :=
  g.nodes.find? (fun x => x.id = n)

end Graph

/-- `CompileGraphError`.  The source enum also has variants raised by other
layers (`NodeOnEdgeNotFound`, `NodeIDNotUnique`, `EdgeIDNotUnique`,
`NodeActivationFailed`, `MessageChannelFull`); the compiler passes modelled
here raise only `CycleDetected` and `ManyToOneError`.  `assertFailed` models a
Rust panic (a failed `assert!` in `GraphIR::preprocess`, a failed `.expect` in
`solve_buffer_requirements`, or indexing a missing arena entry); the source
panics there instead of returning an error. -/
inductive CompileGraphError
  | cycleDetected
  | manyToOneError (node : Nat) (port : Nat)
  | assertFailed
deriving DecidableEq, Repr

/-- The assertion checks performed by `GraphIR::preprocess`:
`nodes.contains(graph_in)`, `nodes.contains(graph_out)`, every node has at
most 64 inputs and 64 outputs, and every edge's endpoints exist in the node
arena (indexing `nodes[edge.src_node.idx]` / `nodes[edge.dst_node.idx]`
panics otherwise).  The `debug_assert_ne!` checks are debug-build-only and are
not modelled. -/
def preprocessChecks (g : Graph) : Bool :=
  (g.nodes.any (fun n => n.id = g.graphInId)) &&
  (g.nodes.any (fun n => n.id = g.graphOutId)) &&
  (g.nodes.all (fun n => decide (n.numInputs ≤ 64) && decide (n.numOutputs ≤ 64))) &&
  (g.edges.all (fun e =>
    g.nodes.any (fun n => n.id = e.srcNode) && g.nodes.any (fun n => n.id = e.dstNode)))

/-- `GraphIR::preprocess`, with its panics modelled as an error value. -/
def preprocessE (g : Graph) : Except CompileGraphError Unit :=
  if preprocessChecks g then .ok () else .error .assertFailed

/-! ## Kahn topological sort (`GraphIR::sort_topologically`) -/

/-- The loop state of `sort_topologically`: the per-node `in_degree` vector
(an `i32` in the source, hence `Int`), the FIFO `queue` (front = next popped,
push at the back), the `schedule` built so far (only the node ids matter at
this stage: `ScheduledNode::new(id)` has empty buffer lists), and
`num_visited`. -/
structure KahnState where
  indeg : Nat → Int
  queue : List Nat
  schedule : List Nat
  numVisited : Nat

/-- The `in_degree` vector after the initial counting loop: the number of
edges terminating at `d`.  (The source iterates every node's `outgoing` list
and increments the destination slot; since `preprocess` has verified that
every edge's source node exists, and arena slots are unique, each edge is
counted exactly once.) -/
def initInDegree (g : Graph) : Nat → Int :=
  fun d => ((g.edges.filter (fun e => e.dstNode = d)).length : Int)

/-- The initial queue: the nodes whose `incoming` list is empty, in arena
iteration order. -/
def initQueue (g : Graph) : List Nat :=
  (g.nodes.filter (fun n => (g.incoming n.id).isEmpty)).map (fun n => n.id)

def initKahnState (g : Graph) : KahnState :=
  { indeg := initInDegree g, queue := initQueue g, schedule := [], numVisited := 0 }

/-- The inner loop of the BFS traversal: for each outgoing edge of the popped
node, decrement the destination's in-degree and enqueue the destination if
the in-degree became exactly 0. -/
def processOutgoing : List Edge → (Nat → Int) → List Nat → ((Nat → Int) × List Nat)
  | [], indeg, queue => (indeg, queue)
  | e :: rest, indeg, queue =>
    let v := indeg e.dstNode - 1
    let indeg1 : Nat → Int := fun d => if d = e.dstNode then v else indeg d
    let queue1 := if v = 0 then queue ++ [e.dstNode] else queue
    processOutgoing rest indeg1 queue1

/-- Fuel bound for the BFS loop.  The loop pops one node per iteration; every
node is enqueued at most once initially (its `incoming` list is empty) plus at
most once when a decrement brings its in-degree to exactly 0 (an in-degree
passes through 0 at most once), so the number of iterations is at most
`nodes.length + edges.length`.  When the fuel runs out with a non-empty queue
the caller reports `CycleDetected`; this can never mask a successful run of
the source loop. -/
def kahnFuel (g : Graph) : Nat := g.nodes.length + g.edges.length + 1

/-- The `while let Some(node_id) = queue.pop_front()` loop of
`sort_topologically`.  When `buildSchedule` is false (the `cycle_detected`
entry point) the schedule is not built.  (Looking up the popped node's entry
cannot panic here: every popped id is a node id for the graphs `preprocess`
accepts, and `Graph.outgoing` is total.) -/
def kahnLoop (g : Graph) (buildSchedule : Bool) : Nat → KahnState → KahnState
  | 0, st => st
  | fuel + 1, st =>
    match st.queue with
    | [] => st
    | n :: rest =>
      let p := processOutgoing (g.outgoing n) st.indeg rest
      kahnLoop g buildSchedule fuel
        { indeg := p.1, queue := p.2,
          schedule := if buildSchedule then st.schedule ++ [n] else st.schedule,
          numVisited := st.numVisited + 1 }

/-- `GraphIR::sort_topologically(build_schedule = true)`: the resulting
schedule order (as node ids), or `CycleDetected` when not all nodes were
visited.  (The source also records `graph_in_idx`/`graph_out_idx`; in this
source tree they are dropped again by the two-argument
`CompiledSchedule::new`, which uses the first and last scheduled node
instead, so they are not modelled.) -/
def sortTopologically (g : Graph) : Except CompileGraphError (List Nat) :=
  let st := kahnLoop g true (kahnFuel g) (initKahnState g)
  if st.queue.isEmpty && st.numVisited == g.nodes.length then .ok st.schedule
  else .error .cycleDetected

/-- `compiler::cycle_detected`: `preprocess` followed by
`sort_topologically(false)`, reporting whether the sort returned
`CycleDetected`.  A `preprocess` panic propagates. -/
def cycleDetectedE (g : Graph) : Except CompileGraphError Bool := do
  preprocessE g
  let st := kahnLoop g false (kahnFuel g) (initKahnState g)
  pure (!(st.queue.isEmpty && st.numVisited == g.nodes.length))

/-! ## Buffer allocation (`BufferAllocator` and
`GraphIR::solve_buffer_requirements`) -/

/-- `BufferRef`: an abstract buffer index together with its reuse
generation. -/
structure BufferRef where
  idx : Nat
  generation : Nat
deriving DecidableEq, Repr

/-- A reference-counted handle `Rc<BufferRef>`.  `serial` is the identity of
the `Rc` allocation: clones of one `acquire` result share its serial, and two
`acquire` calls always produce distinct serials (even when they reuse the same
buffer index). -/
structure Handle where
  idx : Nat
  generation : Nat
  serial : Nat
deriving DecidableEq, Repr

/-- `BufferAllocator`: the free list (head = most recently pushed, matching
`Vec` push/pop at the back) and the high-water-mark `count`.  `nextSerial` is
model bookkeeping for `Rc` identity, not a field of the source struct. -/
structure BufferAllocator where
  freeList : List BufferRef
  count : Nat
  nextSerial : Nat
deriving DecidableEq, Repr

/-- `BufferAllocator::acquire`: pop a free entry or mint index `count`. -/
def BufferAllocator.acquire (a : BufferAllocator) : Handle × BufferAllocator :=
  match a.freeList with
  | b :: rest =>
    ({ idx := b.idx, generation := b.generation, serial := a.nextSerial },
     { freeList := rest, count := a.count, nextSerial := a.nextSerial + 1 })
  | [] =>
    ({ idx := a.count, generation := 0, serial := a.nextSerial },
     { freeList := [], count := a.count + 1, nextSerial := a.nextSerial + 1 })

/-- Lookup in the edge-to-buffer `assignment_table` (an arena keyed by edge
id). -/
def tableGet (t : List (Nat × Handle)) (key : Nat) : Option Handle :=
  (t.find? (fun p => p.1 = key)).map (fun p => p.2)

/-- `assignment_table.insert_at(edge_id, handle)` (replaces any entry at the
same key). -/
def tableInsert (t : List (Nat × Handle)) (key : Nat) (h : Handle) : List (Nat × Handle) :=
  (key, h) :: t.filter (fun p => p.1 != key)

/-- `assignment_table.remove(edge_id)` (the removal part; the lookup part is
`tableGet`). -/
def tableRemove (t : List (Nat × Handle)) (key : Nat) : List (Nat × Handle) :=
  t.filter (fun p => p.1 != key)

/-- The number of other live clones of the `Rc` allocation `s` at release
time: copies still in the assignment table plus copies later in the drained
`buffers_to_release` list.  `Rc::strong_count` at the `release` call is this
number plus one (the handle being released). -/
def serialCount (t : List (Nat × Handle)) (rest : List Handle) (s : Nat) : Nat :=
  (t.filter (fun p => p.2.serial == s)).length + (rest.filter (fun h => h.serial == s)).length

/-- The `for buffer in buffers_to_release.drain(..) { allocator.release(buffer) }`
loop: a released handle is pushed back onto the free list (with its
generation bumped) only when its strong count has dropped to the allocator's
own reference. -/
def releaseAll (t : List (Nat × Handle)) : List Handle → BufferAllocator → BufferAllocator
  | [], a => a
  | h :: rest, a =>
    let a1 := if serialCount t rest h.serial = 0 then
        { a with freeList := { idx := h.idx, generation := h.generation + 1 } :: a.freeList }
      else a
    releaseAll t rest a1

/-- `InBufferAssignment`. -/
structure InBufferAssignment where
  bufferIndex : Nat
  shouldClear : Bool
  generation : Nat
deriving DecidableEq, Repr

/-- `OutBufferAssignment`. -/
structure OutBufferAssignment where
  bufferIndex : Nat
  generation : Nat
deriving DecidableEq, Repr

/-- `ScheduledNode`: a node with its assigned input and output buffers. -/
structure ScheduledNode where
  id : Nat
  inputBuffers : List InBufferAssignment
  outputBuffers : List OutBufferAssignment
deriving DecidableEq, Repr

/-- The state while assigning the buffers of one scheduled node:
the allocator, the assignment table, the `buffers_to_release` list and the
assignments pushed so far. -/
structure NodeSolveState where
  alloc : BufferAllocator
  table : List (Nat × Handle)
  pending : List Handle
  inAssign : List InBufferAssignment
  outAssign : List OutBufferAssignment
deriving DecidableEq, Repr

/-- One iteration of the input-port loop of `solve_buffer_requirements`:

* no incoming edge on the port: acquire a fresh buffer, assign it with
  `should_clear = true`, tag it for release;
* exactly one incoming edge: take the edge's buffer from the assignment
  table (the `.expect` panics when it is missing), assign it with
  `should_clear = false`, tag it for release;
* more than one: `ManyToOneError`. -/
def solveInPort (nid : Nat) (inc : List Edge) (st : NodeSolveState) (p : Nat) :
    Except CompileGraphError NodeSolveState :=
  match inc.filter (fun e => e.dstPort == p) with
  | [] =>
    let q := st.alloc.acquire
    .ok { st with
          alloc := q.2,
          inAssign := st.inAssign ++ [⟨q.1.idx, true, q.1.generation⟩],
          pending := st.pending ++ [q.1] }
  | [e] =>
    match tableGet st.table e.id with
    | none => .error .assertFailed
    | some h =>
      .ok { st with
            table := tableRemove st.table e.id,
            inAssign := st.inAssign ++ [⟨h.idx, false, h.generation⟩],
            pending := st.pending ++ [h] }
  | _ => .error (.manyToOneError nid p)

/-- One iteration of the output-port loop of `solve_buffer_requirements`:
always acquire a fresh buffer; when the port has outgoing edges, clone the
handle into the assignment table for each of them, otherwise tag the handle
for release. -/
def solveOutPort (outg : List Edge) (st : NodeSolveState) (p : Nat) : NodeSolveState :=
  let edges := outg.filter (fun e => e.srcPort == p)
  let q := st.alloc.acquire
  if edges.isEmpty then
    { st with
      alloc := q.2,
      outAssign := st.outAssign ++ [⟨q.1.idx, q.1.generation⟩],
      pending := st.pending ++ [q.1] }
  else
    { st with
      alloc := q.2,
      table := edges.foldl (fun t e => tableInsert t e.id q.1) st.table,
      outAssign := st.outAssign ++ [⟨q.1.idx, q.1.generation⟩] }

/-- Run the input-port loop over the given port indices. -/
def runInPorts (nid : Nat) (inc : List Edge) :
    List Nat → NodeSolveState → Except CompileGraphError NodeSolveState
  | [], st => .ok st
  | p :: ps, st =>
    match solveInPort nid inc st p with
    | .ok st1 => runInPorts nid inc ps st1
    | .error e => .error e

/-- Run the output-port loop over the given port indices. -/
def runOutPorts (outg : List Edge) : List Nat → NodeSolveState → NodeSolveState
  | [], st => st
  | p :: ps, st => runOutPorts outg ps (solveOutPort outg st p)

/-- The state threaded through `solve_buffer_requirements` between scheduled
nodes: the allocator, the assignment table, and the `ScheduledNode`s whose
buffers are already assigned. -/
structure SolveState where
  alloc : BufferAllocator
  table : List (Nat × Handle)
  schedule : List ScheduledNode
deriving DecidableEq, Repr

/-- Assign the buffers of one scheduled node: the input-port loop, the
output-port loop, then the release of all tagged buffers.  Looking up the
node entry mirrors `self.nodes[entry.id.idx]` (a panic when absent). -/
def solveNode (g : Graph) (st : SolveState) (nid : Nat) :
    Except CompileGraphError SolveState :=
  match g.findNode nid with
  | none => .error .assertFailed
  | some entry =>
    match runInPorts nid (g.incoming nid) (List.range entry.numInputs)
        { alloc := st.alloc, table := st.table, pending := [],
          inAssign := [], outAssign := [] } with
    | .error e => .error e
    | .ok ns1 =>
      let ns2 := runOutPorts (g.outgoing nid) (List.range entry.numOutputs) ns1
      .ok { alloc := releaseAll ns2.table ns2.pending ns2.alloc,
            table := ns2.table,
            schedule := st.schedule ++ [⟨nid, ns2.inAssign, ns2.outAssign⟩] }

/-- The `for entry in &mut self.schedule` loop of
`solve_buffer_requirements`. -/
def solveOrder (g : Graph) : List Nat → SolveState → Except CompileGraphError SolveState
  | [], st => .ok st
  | n :: rest, st =>
    match solveNode g st n with
    | .ok st1 => solveOrder g rest st1
    | .error e => .error e

/-- `CompiledSchedule`, as constructed by the two-argument
`CompiledSchedule::new(schedule, num_buffers)` of this source tree (which
drops the `graph_in_idx`/`graph_out_idx` arguments that `GraphIR::merge`
computes and relies on `schedule.first()`/`schedule.last()` instead).
`numBuffers` is the length of the owned buffer pool and of the parallel
silence-flag vector. -/
structure CompiledSchedule where
  schedule : List ScheduledNode
  numBuffers : Nat
deriving DecidableEq, Repr

/-- `compiler::compile`: `preprocess`, `sort_topologically(true)`,
`solve_buffer_requirements`, `merge`.  `numBuffers` is the allocator's
high-water mark (`BufferAllocator::num_buffers`). -/
def compile (g : Graph) : Except CompileGraphError CompiledSchedule := do
  preprocessE g
  let order ← sortTopologically g
  let st ← solveOrder g order { alloc := ⟨[], 0, 0⟩, table := [], schedule := [] }
  pure ⟨st.schedule, st.alloc.count⟩

/-! ## The graph store (firewheel-graph/src/graph.rs) -/

/-- `AddEdgeError`. -/
inductive AddEdgeError
  | srcNodeNotFound (node : Nat)
  | dstNodeNotFound (node : Nat)
  | inPortOutOfRange (node : Nat) (portIdx : Nat) (numInPorts : Nat)
  | outPortOutOfRange (node : Nat) (portIdx : Nat) (numOutPorts : Nat)
  | edgeAlreadyExists
  | inputPortAlreadyConnected (node : Nat) (portIdx : Nat)
  | cycleDetected
deriving DecidableEq, Repr

/-- `EdgeHash`: the 4-tuple key of the `existing_edges` map. -/
structure EdgeHash where
  srcNode : Nat
  srcPort : Nat
  dstNode : Nat
  dstPort : Nat
deriving DecidableEq, Repr

/-- `AudioGraph`: the node and edge arenas (in iteration order), the
`connected_input_ports` hash set and the `existing_edges` hash map (hash
containers are unordered, so only list membership is meaningful), the
sentinel ids and the `needs_compile` flag.  `nextNodeId`/`nextEdgeId`
generate fresh arena ids (generational indices abstracted to unique `Nat`s).
The activation bookkeeping (`nodes_to_activate` etc.) is not modelled. -/
structure AudioGraph where
  nodes : List NodeEntry
  edges : List Edge
  connectedInputPorts : List (Nat × Nat)
  existingEdges : List (EdgeHash × Nat)
  graphInId : Nat
  graphOutId : Nat
  needsCompile : Bool
  nextNodeId : Nat
  nextEdgeId : Nat
deriving DecidableEq, Repr

namespace AudioGraph

/-- `AudioGraph::new(config)`: the `graph_in` sentinel (0 inputs,
`num_graph_inputs` outputs) is inserted first, then the `graph_out` sentinel
(`num_graph_outputs` inputs, 0 outputs). -/
def new (numGraphInputs numGraphOutputs : Nat) : AudioGraph :=
  { nodes := [⟨0, 0, numGraphInputs⟩, ⟨1, numGraphOutputs, 0⟩],
    edges := [], connectedInputPorts := [], existingEdges := [],
    graphInId := 0, graphOutId := 1, needsCompile := true,
    nextNodeId := 2, nextEdgeId := 0 }

/-- `AudioGraph::add_node`: unconditionally inserts the entry and returns its
fresh id.  (The source performs no validation of the port counts here.) -/
def addNode (g : AudioGraph) (numInputs numOutputs : Nat) : Nat × AudioGraph :=
  (g.nextNodeId,
   { g with
     nodes := g.nodes ++ [⟨g.nextNodeId, numInputs, numOutputs⟩],
     nextNodeId := g.nextNodeId + 1,
     needsCompile := true })

/-- The compiler's view of the store. -/
def toGraph (g : AudioGraph) : Graph :=
  { nodes := g.nodes, edges := g.edges,
    graphInId := g.graphInId, graphOutId := g.graphOutId }

/-- The result of `AudioGraph::connect` together with the final graph state
(the source method mutates `self`; errors do not roll every mutation back).
`panicRaised` models a panic escaping from the cycle check's `preprocess`
assertions. -/
inductive ConnectOutcome
  | ok (edgeId : Nat)
  | err (e : AddEdgeError)
  | panicRaised
deriving DecidableEq, Repr

/-- `AudioGraph::connect`.  The checks run in source order: source node
lookup, destination node lookup, output-port range, input-port range,
self-loop (reported as `CycleDetected`), duplicate edge, input port already
connected.  On the tentative-insert-then-cycle path only the edge arena is
rolled back; `connected_input_ports` and `existing_edges` keep the new
entries (mirroring the source). -/
def connect (g : AudioGraph) (srcNode srcPort dstNode dstPort : Nat)
    (checkForCycles : Bool) : ConnectOutcome × AudioGraph :=
  match g.nodes.find? (fun n => n.id = srcNode) with
  | none => (.err (.srcNodeNotFound srcNode), g)
  | some srcEntry =>
    match g.nodes.find? (fun n => n.id = dstNode) with
    | none => (.err (.dstNodeNotFound dstNode), g)
    | some dstEntry =>
      if srcPort ≥ srcEntry.numOutputs then
        (.err (.outPortOutOfRange srcNode srcPort srcEntry.numOutputs), g)
      else if dstPort ≥ dstEntry.numInputs then
        (.err (.inPortOutOfRange dstNode dstPort dstEntry.numInputs), g)
      else if srcNode = dstNode then
        (.err .cycleDetected, g)
      else if g.existingEdges.any (fun p => p.1 == ⟨srcNode, srcPort, dstNode, dstPort⟩) then
        (.err .edgeAlreadyExists, g)
      else if g.connectedInputPorts.contains (dstNode, dstPort) then
        (.err (.inputPortAlreadyConnected dstNode dstPort), g)
      else
        let newEdgeId := g.nextEdgeId
        let g1 := { g with
          connectedInputPorts := g.connectedInputPorts ++ [(dstNode, dstPort)],
          edges := g.edges ++ [⟨newEdgeId, srcNode, srcPort, dstNode, dstPort⟩],
          existingEdges :=
            g.existingEdges ++ [(⟨srcNode, srcPort, dstNode, dstPort⟩, newEdgeId)],
          nextEdgeId := g.nextEdgeId + 1 }
        if checkForCycles then
          match cycleDetectedE g1.toGraph with
          | .error _ => (.panicRaised, g1)
          | .ok true =>
            (.err .cycleDetected,
             { g1 with edges := g1.edges.filter (fun e => e.id != newEdgeId) })
          | .ok false => (.ok newEdgeId, { g1 with needsCompile := true })
        else (.ok newEdgeId, { g1 with needsCompile := true })

end AudioGraph

/-! ## Concrete example graphs -/

/-- A graph built through the public mutation API: `graph_in` (1 output) and
`graph_out` (2 inputs), with the single source output port fanned out to both
input ports of `graph_out`. -/
def fanInGraph : AudioGraph :=
  (((AudioGraph.new 1 2).connect 0 0 1 0 false).2.connect 0 0 1 1 false).2

/-- A graph with an extra isolated node added after the sentinels
(`graph_in`, `graph_out`, then one node with no ports). -/
def isolatedSinkGraph : AudioGraph := ((AudioGraph.new 0 0).addNode 0 0).2

/-- Sentinels (no ports) plus two one-in/one-out nodes (ids 2 and 3). -/
def cycleProbeBase : AudioGraph :=
  (((AudioGraph.new 0 0).addNode 1 1).2.addNode 1 1).2

/-- `cycleProbeBase` after a successful `connect(2, 0, 3, 0, false)`. -/
def cycleProbeBefore : AudioGraph := (cycleProbeBase.connect 2 0 3 0 false).2

/-- The result of `connect(3, 0, 2, 0, check_for_cycles = true)` on
`cycleProbeBefore`: the tentatively inserted edge 3→2 closes a cycle. -/
def cycleProbeResult : AudioGraph.ConnectOutcome × AudioGraph :=
  cycleProbeBefore.connect 3 0 2 0 true

/-- The schedule the compiler produces for `fanInGraph`. -/
def fanInSchedule : CompiledSchedule :=
  ⟨[⟨0, [], [⟨0, 0⟩]⟩, ⟨1, [⟨0, false, 0⟩, ⟨0, false, 0⟩], []⟩], 1⟩

/-- The schedule the compiler produces for `isolatedSinkGraph`. -/
def isolatedSinkSchedule : CompiledSchedule :=
  ⟨[⟨0, [], []⟩, ⟨1, [], []⟩, ⟨2, [], []⟩], 0⟩

/-! ## The audio-thread processor (firewheel-graph/src/processor.rs) -/

/-- `FirewheelProcessorStatus`. -/
inductive FirewheelProcessorStatus
  | ok
  | dropProcessor
deriving DecidableEq, Repr

/-- `ScheduleHeapData` (graph.rs): the compiled schedule plus the node
bookkeeping shipped to the audio thread.  `maxBlockFrames` stands for
`schedule.max_block_frames()` (the block size the schedule's buffer pool was
allocated with); the node-processor boxes are represented by their arena ids;
the `removed_node_processors` return-freight list is not modelled. -/
structure ScheduleHeapData where
  schedule : CompiledSchedule
  maxBlockFrames : Nat
  nodesToRemove : List Nat
  newNodeProcessors : List Nat
deriving Repr

/-- `ContextToProcessorMsg`. -/
inductive ContextToProcessorMsg
  | newSchedule (d : ScheduleHeapData)
  | stop

/-- `FirewheelProcessor`: the `running` flag, the installed schedule, the
node-processor arena (as the list of occupied ids), the configured block
size, and the two message channels (the consumer's pending messages and the
messages pushed back to the context, which we model as unbounded). -/
structure ProcState where
  running : Bool
  scheduleData : Option ScheduleHeapData
  nodes : List Nat
  maxBlockFrames : Nat
  inbox : List ContextToProcessorMsg
  outbox : List ScheduleHeapData

/-- The `self.nodes.insert_at(node_id.idx, processor)` loop: each insertion
asserts the slot is vacant (`.is_none()`), a panic otherwise. -/
def insertNodes : List Nat → List Nat → Option (List Nat)
  | ns, [] => some ns
  | ns, i :: rest => if i ∈ ns then none else insertNodes (i :: ns) rest

/-- One message of `poll_messages`: `Stop` clears `running`; `NewSchedule`
asserts the schedule's block size matches the processor's
(`assert_eq!(..., self.max_block_frames)`, a panic otherwise), removes the
outgoing schedule's stale nodes when one is installed (pushing it back to the
context as `ReturnSchedule`), and registers the new node processors. -/
def applyMsg (st : ProcState) : ContextToProcessorMsg → Option ProcState
  | .stop => some { st with running := false }
  | .newSchedule d =>
    if d.maxBlockFrames = st.maxBlockFrames then
      match st.scheduleData with
      | some old =>
        match insertNodes (st.nodes.filter (fun i => !d.nodesToRemove.contains i))
            d.newNodeProcessors with
        | some ns =>
          some { st with
                 nodes := ns
                 scheduleData := some d
                 outbox := st.outbox ++ [old] }
        | none => none
      | none =>
        match insertNodes st.nodes d.newNodeProcessors with
        | some ns => some { st with nodes := ns, scheduleData := some d }
        | none => none
    else none

/-- The `while let Ok(msg) = self.from_graph_rx.pop()` loop of
`poll_messages`. -/
def pollLoop : List ContextToProcessorMsg → ProcState → Option ProcState
  | [], st => some st
  | m :: rest, st =>
    match applyMsg st m with
    | some st1 => pollLoop rest st1
    | none => none

/-- `FirewheelProcessor::poll_messages`: drain the pending messages. -/
def pollMessages (st : ProcState) : Option ProcState :=
  pollLoop st.inbox { st with inbox := [] }

/-- `output[start .. start + vals.length] = vals` (the slice a block's
`read_graph_outputs` interleaves into), the rest untouched. -/
def writeSlice (out : List Float) (start : Nat) (vals : List Float) : List Float :=
  out.take start ++ vals ++ out.drop (start + vals.length)

/-- `output[start ..].fill(0.0)`. -/
def zeroFrom (out : List Float) (start : Nat) : List Float :=
  out.take start ++ List.replicate (out.length - start) (0.0 : Float)

/-- The `while frames_processed < frames` loop of `process_interleaved`.
Each iteration handles `min(frames - frames_processed, max_block_frames)`
frames: `prepare_graph_inputs`, `process_block` (which first polls the
message queue and only runs the scheduled nodes while `running` with a
schedule installed) and `read_graph_outputs`.  The samples the graph writes
to the block's output slice pass through the user-supplied
`AudioNodeProcessor` trait objects, which are opaque to the compiler; they
are abstracted as `dsp start len ran` (`ran` records whether the nodes
actually ran).  When a poll clears `running` mid-stream the source zero-fills
the output from the current block's start and breaks.  The returned `Nat`
counts the blocks for which the scheduled nodes ran.  The fuel only runs out
when `max_block_frames = 0`, where the source loop itself never terminates;
the entry point supplies `frames + 1`. -/
def blockLoop (dsp : Nat → Nat → Bool → List Float) (numOutChannels frames : Nat) :
    Nat → Nat → ProcState → List Float → Nat → Option (ProcState × List Float × Nat)
  | 0, _, _, _, _ => none
  | fuel + 1, framesProcessed, st, out, blocks =>
    if framesProcessed < frames then
      match pollMessages st with
      | none => none
      | some st1 =>
        let blockFrames := min (frames - framesProcessed) st1.maxBlockFrames
        let ran := st1.running && st1.scheduleData.isSome
        let out1 := writeSlice out (framesProcessed * numOutChannels)
            (dsp framesProcessed blockFrames ran)
        if st1.running then
          blockLoop dsp numOutChannels frames fuel (framesProcessed + blockFrames)
            st1 out1 (blocks + (if ran then 1 else 0))
        else
          some (st1, zeroFrom out1 (framesProcessed * numOutChannels), blocks)
    else
      some (st, out, blocks)

/-- `FirewheelProcessor::process_interleaved`: the early-out ladder
(`!running` → zeros and `DropProcessor`; no schedule → poll, and if the poll
stopped the processor → zeros and `DropProcessor`; still no schedule, or
`frames == 0` → zeros and `Ok`), the two length assertions (panics, modelled
as `none`), the block loop, and the final status from `running`.  The result
is the final processor state, the output slice, the returned status and the
number of blocks for which the scheduled nodes ran. -/
def processInterleaved (st : ProcState) (input output : List Float)
    (numInChannels numOutChannels frames : Nat)
    (dsp : Nat → Nat → Bool → List Float) :
    Option (ProcState × List Float × FirewheelProcessorStatus × Nat) :=
  if !st.running then
    some (st, List.replicate output.length (0.0 : Float), .dropProcessor, 0)
  else
    match (if st.scheduleData.isNone then pollMessages st else some st) with
    | none => none
    | some st1 =>
      if st.scheduleData.isNone && !st1.running then
        some (st1, List.replicate output.length (0.0 : Float), .dropProcessor, 0)
      else if st1.scheduleData.isNone || frames == 0 then
        some (st1, List.replicate output.length (0.0 : Float), .ok, 0)
      else if input.length ≠ frames * numInChannels then none
      else if output.length ≠ frames * numOutChannels then none
      else
        match blockLoop dsp numOutChannels frames (frames + 1) 0 st1 output 0 with
        | none => none
        | some (st2, out2, blocks) =>
          some (st2, out2, if st2.running then .ok else .dropProcessor, blocks)

/-! ## Kahn sort: loop invariant -/

/-- The number of edges terminating at `d` (the initial in-degree of `d`). -/
def dstCount (g : Graph) (d : Nat) : Nat :=
  g.edges.countP (fun e => e.dstNode = d)

/-- The number of edges terminating at `d` whose source is already
scheduled. -/
def poppedCount (g : Graph) (sched : List Nat) (d : Nat) : Nat :=
  g.edges.countP (fun e => decide (e.dstNode = d) && decide (e.srcNode ∈ sched))

/-- The invariant holding in the middle of the inner decrement loop of the
BFS: `n` is the node just popped from the queue, `done` are its
already-processed outgoing edges. -/
def MidInv (g : Graph) (sched : List Nat) (n : Nat) (done : List Edge)
    (indeg : Nat → Int) (queue : List Nat) : Prop :=
  (∀ d, indeg d = (dstCount g d : Int) - (poppedCount g sched d : Int)
      - (done.countP (fun e => e.dstNode = d) : Int)) ∧
  (∀ x ∈ queue, x ∈ g.nodeIds) ∧
  ((sched ++ [n]) ++ queue).Nodup ∧
  (∀ d, (d ∈ sched ++ [n] ∨ d ∈ queue) → indeg d ≤ 0) ∧
  (∀ x ∈ queue, ∀ e ∈ g.edges, e.dstNode = x → e.srcNode ∈ sched ++ [n])

/-- The loop invariant of the Kahn BFS (between iterations, with
`build_schedule = true`). -/
structure KahnInv (g : Graph) (st : KahnState) : Prop where
  visited_eq : st.numVisited = st.schedule.length
  sched_nodes : ∀ x ∈ st.schedule, x ∈ g.nodeIds
  queue_nodes : ∀ x ∈ st.queue, x ∈ g.nodeIds
  nodup : (st.schedule ++ st.queue).Nodup
  indeg_eq : ∀ d, st.indeg d = (dstCount g d : Int) - (poppedCount g st.schedule d : Int)
  nonpos_sched : ∀ d ∈ st.schedule, st.indeg d ≤ 0
  nonpos_queue : ∀ d ∈ st.queue, st.indeg d ≤ 0
  queue_ready : ∀ x ∈ st.queue, ∀ e ∈ g.edges, e.dstNode = x → e.srcNode ∈ st.schedule
  sched_ordered : ∀ e ∈ g.edges, e.dstNode ∈ st.schedule →
    List.Sublist [e.srcNode, e.dstNode] st.schedule

/-- Everything the solve pass holds a buffer index in stays below the
allocator's high-water mark `count`. -/
def NodeBound (ns : NodeSolveState) : Prop :=
  (∀ b ∈ ns.alloc.freeList, b.idx < ns.alloc.count) ∧
  (∀ p ∈ ns.table, p.2.idx < ns.alloc.count) ∧
  (∀ h ∈ ns.pending, h.idx < ns.alloc.count) ∧
  (∀ a ∈ ns.inAssign, a.bufferIndex < ns.alloc.count) ∧
  (∀ a ∈ ns.outAssign, a.bufferIndex < ns.alloc.count)

def SolveBound (st : SolveState) : Prop :=
  (∀ b ∈ st.alloc.freeList, b.idx < st.alloc.count) ∧
  (∀ p ∈ st.table, p.2.idx < st.alloc.count) ∧
  (∀ sn ∈ st.schedule,
    (∀ a ∈ sn.inputBuffers, a.bufferIndex < st.alloc.count) ∧
    (∀ a ∈ sn.outputBuffers, a.bufferIndex < st.alloc.count))

/-- The buffer index recorded in the output assignment of the scheduled node
with id `n` at port `p` (lookup by node id). -/
def outIdxAt (sched : List ScheduledNode) (n p : Nat) : Option Nat :=
  (sched.find? (fun sn => sn.id = n)).bind
    (fun sn => (sn.outputBuffers.get? p).map (fun a => a.bufferIndex))

/-- The buffer index recorded in the input assignment of the scheduled node
with id `n` at port `p`. -/
def inIdxAt (sched : List ScheduledNode) (n p : Nat) : Option Nat :=
  (sched.find? (fun sn => sn.id = n)).bind
    (fun sn => (sn.inputBuffers.get? p).map (fun a => a.bufferIndex))

/-- The invariant of the `solve_buffer_requirements` pass after the nodes in
`done` have been processed: the schedule lists exactly `done`; every live
assignment-table entry belongs to an edge whose source is already scheduled
and stores that source port's recorded buffer index; and every edge whose
destination is already scheduled has matching recorded buffer indices at its
two endpoints. -/
def SolveTrack (g : Graph) (done : List Nat) (st : SolveState) : Prop :=
  st.schedule.map (fun sn => sn.id) = done ∧
  (∀ k h, tableGet st.table k = some h →
    ∃ e ∈ g.edges, e.id = k ∧ e.srcNode ∈ done ∧
      outIdxAt st.schedule e.srcNode e.srcPort = some h.idx) ∧
  (∀ e ∈ g.edges, e.dstNode ∈ done →
    ∃ k, outIdxAt st.schedule e.srcNode e.srcPort = some k ∧
      inIdxAt st.schedule e.dstNode e.dstPort = some k)

/-- A store with one 2-in/3-out node (id 2) besides the sentinels. -/
def c8WitnessGraph : AudioGraph := ((AudioGraph.new 0 0).addNode 2 3).2

theorem countP_split {α : Type} (l : List α) (p q : α → Bool) :
    l.countP p = l.countP (fun a => p a && q a) + l.countP (fun a => p a && !q a) := by
  induction l with
  | nil => simp
  | cons x xs ih =>
    simp only [List.countP_cons]
    cases hp : p x <;> cases hq : q x <;> simp [hp, hq] <;> omega

theorem initInDegree_eq (g : Graph) (d : Nat) :
    initInDegree g d = (dstCount g d : Int) := by
  simp [initInDegree, dstCount, List.countP_eq_length_filter]

theorem poppedCount_nil (g : Graph) (d : Nat) : poppedCount g [] d = 0 := by
  simp [poppedCount]

/-- Extending the scheduled list by a fresh node splits the popped-source
count. -/
theorem poppedCount_append (g : Graph) (sched : List Nat) (n : Nat) (d : Nat)
    (hn : n ∉ sched) :
    poppedCount g (sched ++ [n]) d =
      poppedCount g sched d +
        g.edges.countP (fun e => decide (e.dstNode = d) && decide (e.srcNode = n)) := by
  unfold poppedCount
  rw [countP_split g.edges
    (fun e => decide (e.dstNode = d) && decide (e.srcNode ∈ sched ++ [n]))
    (fun e => decide (e.srcNode ∈ sched))]
  congr 1
  · apply List.countP_congr
    intro e _
    simp only [Bool.and_eq_true, decide_eq_true_eq, List.mem_append, List.mem_singleton]
    constructor
    · rintro ⟨⟨hd, _⟩, hs⟩
      exact ⟨hd, hs⟩
    · rintro ⟨hd, hs⟩
      exact ⟨⟨hd, Or.inl hs⟩, hs⟩
  · apply List.countP_congr
    intro e _
    simp only [Bool.and_eq_true, Bool.and_assoc, Bool.not_eq_true', decide_eq_true_eq,
      decide_eq_false_iff_not, List.mem_append, List.mem_singleton]
    constructor
    · rintro ⟨hd, hs | hs, hns⟩
      · exact absurd hs hns
      · exact ⟨hd, hs⟩
    · rintro ⟨hd, hs⟩
      subst hs
      exact ⟨hd, Or.inr rfl, hn⟩

/-- The per-destination count of a node's outgoing list, as a count over the
whole edge arena. -/
theorem outgoing_countP (g : Graph) (n : Nat) (d : Nat) :
    (g.outgoing n).countP (fun e => e.dstNode = d) =
      g.edges.countP (fun e => decide (e.dstNode = d) && decide (e.srcNode = n)) := by
  unfold Graph.outgoing
  rw [List.countP_filter]

theorem midInv_step (g : Graph) (sched : List Nat) (n : Nat)
    (done : List Edge) (e : Edge) (rem : List Edge)
    (indeg : Nat → Int) (queue : List Nat)
    (hout : g.outgoing n = done ++ e :: rem)
    (hn : n ∉ sched)
    (hdst : ∀ e2 ∈ g.edges, e2.dstNode ∈ g.nodeIds)
    (hmid : MidInv g sched n done indeg queue) :
    MidInv g sched n (done ++ [e])
      (fun d => if d = e.dstNode then indeg e.dstNode - 1 else indeg d)
      (if indeg e.dstNode - 1 = 0 then queue ++ [e.dstNode] else queue) := by
  obtain ⟨hindeg, hqn, hnodup, hnonpos, hready⟩ := hmid
  have he_out : e ∈ g.outgoing n := by
    rw [hout]
    exact List.mem_append_right _ (List.mem_cons_self _ _)
  have he_filter := List.mem_filter.mp he_out
  have he_mem : e ∈ g.edges := he_filter.1
  refine ⟨?_, ?_, ?_, ?_, ?_⟩
  · -- the in-degree bookkeeping
    intro d
    dsimp only
    rw [List.countP_append]
    by_cases hd : d = e.dstNode
    · rw [if_pos hd, hindeg e.dstNode]
      have h1 : [e].countP (fun e2 => e2.dstNode = d) = 1 := by
        simp [List.countP_cons, hd.symm]
      rw [h1, hd]
      push_cast
      ring
    · rw [if_neg hd, hindeg d]
      have h0 : [e].countP (fun e2 => e2.dstNode = d) = 0 := by
        simp only [List.countP_cons, List.countP_nil, decide_eq_true_eq]
        rw [if_neg (fun h => hd h.symm)]
      rw [h0]
      push_cast
      ring
  · -- queue members are nodes
    intro x hx
    by_cases hv : indeg e.dstNode - 1 = 0
    · rw [if_pos hv] at hx
      rcases List.mem_append.mp hx with hx | hx
      · exact hqn x hx
      · rw [List.mem_singleton] at hx
        subst hx
        exact hdst e he_mem
    · rw [if_neg hv] at hx
      exact hqn x hx
  · -- no duplicates
    by_cases hv : indeg e.dstNode - 1 = 0
    · rw [if_pos hv]
      have hfresh : e.dstNode ∉ (sched ++ [n]) ++ queue := by
        intro hmem
        have hle : indeg e.dstNode ≤ 0 := by
          rcases List.mem_append.mp hmem with h | h
          · exact hnonpos _ (Or.inl h)
          · exact hnonpos _ (Or.inr h)
        omega
      have hassoc : (sched ++ [n]) ++ (queue ++ [e.dstNode]) =
          ((sched ++ [n]) ++ queue) ++ [e.dstNode] := by
        simp [List.append_assoc]
      rw [hassoc, List.nodup_append]
      refine ⟨hnodup, List.nodup_singleton _, ?_⟩
      intro y hy hytail
      rw [List.mem_singleton] at hytail
      subst hytail
      exact hfresh hy
    · rw [if_neg hv]
      exact hnodup
  · -- in-degrees of scheduled and queued nodes stay nonpositive
    intro d hd
    dsimp only
    by_cases hdx : d = e.dstNode
    · rw [if_pos hdx]
      by_cases hv : indeg e.dstNode - 1 = 0
      · omega
      · rw [if_neg hv] at hd
        have hle := hnonpos d hd
        rw [hdx] at hle
        omega
    · rw [if_neg hdx]
      rcases hd with h | h
      · exact hnonpos d (Or.inl h)
      · by_cases hv : indeg e.dstNode - 1 = 0
        · rw [if_pos hv] at h
          rcases List.mem_append.mp h with h | h
          · exact hnonpos d (Or.inr h)
          · rw [List.mem_singleton] at h
            exact absurd h hdx
        · rw [if_neg hv] at h
          exact hnonpos d (Or.inr h)
  · -- queue members have all their in-edges' sources scheduled
    intro x hx e1 he1 hdst1
    by_cases hv : indeg e.dstNode - 1 = 0
    swap
    · rw [if_neg hv] at hx
      exact hready x hx e1 he1 hdst1
    rw [if_pos hv] at hx
    rcases List.mem_append.mp hx with hx | hx
    · exact hready x hx e1 he1 hdst1
    rw [List.mem_singleton] at hx
    subst hx
    -- `x = e.dstNode` was enqueued because its in-degree just reached 0:
    -- a counting argument shows every in-edge of `x` has a scheduled source.
    have hC : dstCount g e.dstNode =
        poppedCount g sched e.dstNode +
          (done.countP (fun e2 => e2.dstNode = e.dstNode) + 1) := by
      have h1 := hindeg e.dstNode
      omega
    have hc1 : done.countP (fun e2 => e2.dstNode = e.dstNode) + 1 ≤
        g.edges.countP (fun e2 =>
          decide (e2.dstNode = e.dstNode) && decide (e2.srcNode = n)) := by
      have hpre : (done ++ [e]).Sublist (g.outgoing n) := by
        rw [hout]
        have h2 : done ++ e :: rem = (done ++ [e]) ++ rem := by simp
        rw [h2]
        exact List.sublist_append_left _ _
      have hle := hpre.countP_le (fun e2 => decide (e2.dstNode = e.dstNode))
      rw [List.countP_append] at hle
      have h1 : [e].countP (fun e2 => e2.dstNode = e.dstNode) = 1 := by
        simp [List.countP_cons]
      rw [h1, outgoing_countP] at hle
      exact hle
    have hc2 : g.edges.countP (fun e2 =>
          decide (e2.dstNode = e.dstNode) && decide (e2.srcNode = n)) ≤
        g.edges.countP (fun e2 =>
          decide (e2.dstNode = e.dstNode) && !decide (e2.srcNode ∈ sched)) := by
      apply List.countP_mono_left
      intro e2 _ h
      simp only [Bool.and_eq_true, Bool.not_eq_true', decide_eq_true_eq,
        decide_eq_false_iff_not] at h ⊢
      obtain ⟨h1, h2⟩ := h
      refine ⟨h1, ?_⟩
      rw [h2]
      exact hn
    have hsplit : dstCount g e.dstNode =
        poppedCount g sched e.dstNode +
          g.edges.countP (fun e2 =>
            decide (e2.dstNode = e.dstNode) && !decide (e2.srcNode ∈ sched)) := by
      unfold dstCount poppedCount
      exact countP_split _ _ _
    have hsplit2 : g.edges.countP (fun e2 =>
          decide (e2.dstNode = e.dstNode) && !decide (e2.srcNode ∈ sched)) =
        g.edges.countP (fun e2 =>
          (decide (e2.dstNode = e.dstNode) && !decide (e2.srcNode ∈ sched)) &&
            decide (e2.srcNode = n)) +
        g.edges.countP (fun e2 =>
          (decide (e2.dstNode = e.dstNode) && !decide (e2.srcNode ∈ sched)) &&
            !decide (e2.srcNode = n)) :=
      countP_split _ _ _
    have heq1 : g.edges.countP (fun e2 =>
          (decide (e2.dstNode = e.dstNode) && !decide (e2.srcNode ∈ sched)) &&
            decide (e2.srcNode = n)) =
        g.edges.countP (fun e2 =>
          decide (e2.dstNode = e.dstNode) && decide (e2.srcNode = n)) := by
      apply List.countP_congr
      intro e2 _
      simp only [Bool.and_eq_true, Bool.not_eq_true', decide_eq_true_eq,
        decide_eq_false_iff_not, and_assoc]
      constructor
      · rintro ⟨h1, _, h3⟩
        exact ⟨h1, h3⟩
      · rintro ⟨h1, h3⟩
        refine ⟨h1, ?_, h3⟩
        rw [h3]
        exact hn
    have hzero : g.edges.countP (fun e2 =>
        (decide (e2.dstNode = e.dstNode) && !decide (e2.srcNode ∈ sched)) &&
          !decide (e2.srcNode = n)) = 0 := by
      omega
    rw [List.countP_eq_zero] at hzero
    have hforall := hzero e1 he1
    simp only [Bool.and_eq_true, Bool.not_eq_true', decide_eq_true_eq,
      decide_eq_false_iff_not, not_and] at hforall
    rw [List.mem_append, List.mem_singleton]
    by_cases hin : e1.srcNode ∈ sched
    · exact Or.inl hin
    · right
      by_contra hne
      exact (hforall ⟨hdst1, hin⟩) hne

theorem initKahnInv (g : Graph) (hnodup : g.nodeIds.Nodup) :
    KahnInv g (initKahnState g) := by
  have hqsub : (initQueue g).Sublist g.nodeIds := by
    unfold initQueue Graph.nodeIds
    exact (List.filter_sublist g.nodes).map (fun n => n.id)
  have hqzero : ∀ x ∈ initQueue g, dstCount g x = 0 := by
    intro x hx
    unfold initQueue at hx
    obtain ⟨nd, hnd, rfl⟩ := List.mem_map.mp hx
    have hempty := (List.mem_filter.mp hnd).2
    unfold dstCount
    rw [List.countP_eq_zero]
    intro e he
    simp only [decide_eq_true_eq]
    intro hdst
    rw [List.isEmpty_iff] at hempty
    simp only [Graph.incoming, List.filter_eq_nil_iff, decide_eq_true_eq] at hempty
    exact hempty e he hdst
  refine ⟨rfl, ?_, ?_, ?_, ?_, ?_, ?_, ?_, ?_⟩
  · intro x hx; cases hx
  · intro x hx; exact hqsub.subset hx
  · simpa [initKahnState] using hnodup.sublist hqsub
  · intro d
    simp [initKahnState, initInDegree_eq, poppedCount_nil]
  · intro d hd; cases hd
  · intro d hd
    have := hqzero d hd
    simp [initKahnState, initInDegree_eq, this]
  · intro x hx e he hdst
    exfalso
    have := hqzero x hx
    unfold dstCount at this
    rw [List.countP_eq_zero] at this
    exact this e he (by simp [hdst])
  · intro e _ hmem; cases hmem

theorem processOutgoing_midinv (g : Graph) (sched : List Nat) (n : Nat)
    (hn : n ∉ sched) (hdst : ∀ e2 ∈ g.edges, e2.dstNode ∈ g.nodeIds) :
    ∀ (rem done : List Edge) (indeg : Nat → Int) (queue : List Nat),
      g.outgoing n = done ++ rem →
      MidInv g sched n done indeg queue →
      MidInv g sched n (done ++ rem) (processOutgoing rem indeg queue).1
        (processOutgoing rem indeg queue).2
  | [], done, indeg, queue, _, hmid => by
    simpa [processOutgoing] using hmid
  | e :: rest, done, indeg, queue, hout, hmid => by
    have hstep := midInv_step g sched n done e rest indeg queue hout hn hdst hmid
    have hout2 : g.outgoing n = (done ++ [e]) ++ rest := by
      simpa [List.append_assoc] using hout
    have hrec := processOutgoing_midinv g sched n hn hdst rest (done ++ [e])
      (fun d => if d = e.dstNode then indeg e.dstNode - 1 else indeg d)
      (if indeg e.dstNode - 1 = 0 then queue ++ [e.dstNode] else queue) hout2 hstep
    have hunfold : processOutgoing (e :: rest) indeg queue =
        processOutgoing rest
          (fun d => if d = e.dstNode then indeg e.dstNode - 1 else indeg d)
          (if indeg e.dstNode - 1 = 0 then queue ++ [e.dstNode] else queue) := rfl
    rw [hunfold]
    simpa [List.append_assoc] using hrec

theorem kahnStep_inv (g : Graph) (st : KahnState)
    (hdst : ∀ e2 ∈ g.edges, e2.dstNode ∈ g.nodeIds)
    (hInv : KahnInv g st) (n : Nat) (rest : List Nat) (hq : st.queue = n :: rest) :
    KahnInv g
      { indeg := (processOutgoing (g.outgoing n) st.indeg rest).1,
        queue := (processOutgoing (g.outgoing n) st.indeg rest).2,
        schedule := st.schedule ++ [n],
        numVisited := st.numVisited + 1 } := by
  have hn_mem_queue : n ∈ st.queue := by
    rw [hq]
    exact List.mem_cons_self _ _
  have hnodup := hInv.nodup
  rw [hq] at hnodup
  have hn_not_sched : n ∉ st.schedule := by
    rw [List.nodup_append] at hnodup
    intro h
    exact hnodup.2.2 h (List.mem_cons_self _ _)
  have hnodup2 : ((st.schedule ++ [n]) ++ rest).Nodup := by
    have hass : (st.schedule ++ [n]) ++ rest = st.schedule ++ (n :: rest) := by simp
    rw [hass]
    exact hnodup
  have hmid0 : MidInv g st.schedule n [] st.indeg rest := by
    refine ⟨?_, ?_, hnodup2, ?_, ?_⟩
    · intro d
      simpa using hInv.indeg_eq d
    · intro x hx
      exact hInv.queue_nodes x (by rw [hq]; exact List.mem_cons_of_mem _ hx)
    · intro d hd
      rcases hd with hd | hd
      · rcases List.mem_append.mp hd with hd | hd
        · exact hInv.nonpos_sched d hd
        · rw [List.mem_singleton] at hd
          subst hd
          exact hInv.nonpos_queue _ hn_mem_queue
      · exact hInv.nonpos_queue d (by rw [hq]; exact List.mem_cons_of_mem _ hd)
    · intro x hx e he hdst1
      have hmem := hInv.queue_ready x
        (by rw [hq]; exact List.mem_cons_of_mem _ hx) e he hdst1
      exact List.mem_append_left _ hmem
  have hmid := processOutgoing_midinv g st.schedule n hn_not_sched hdst
    (g.outgoing n) [] st.indeg rest rfl hmid0
  obtain ⟨hindeg, hqn, hnodup3, hnonpos, hready⟩ := hmid
  refine ⟨?_, ?_, ?_, ?_, ?_, ?_, ?_, ?_, ?_⟩
  · simp [hInv.visited_eq]
  · intro x hx
    rcases List.mem_append.mp hx with hx | hx
    · exact hInv.sched_nodes x hx
    · rw [List.mem_singleton] at hx
      subst hx
      exact hInv.queue_nodes _ hn_mem_queue
  · exact hqn
  · exact hnodup3
  · intro d
    dsimp only
    have h1 := hindeg d
    have h2 : (([] : List Edge) ++ g.outgoing n).countP (fun e => e.dstNode = d) =
        g.edges.countP (fun e2 => decide (e2.dstNode = d) && decide (e2.srcNode = n)) := by
      simpa using outgoing_countP g n d
    rw [h2] at h1
    rw [h1, poppedCount_append g st.schedule n d hn_not_sched]
    push_cast
    ring
  · intro d hd
    exact hnonpos d (Or.inl hd)
  · intro d hd
    exact hnonpos d (Or.inr hd)
  · exact hready
  · intro e he hdmem
    rcases List.mem_append.mp hdmem with hd | hd
    · exact (hInv.sched_ordered e he hd).trans (List.sublist_append_left _ _)
    · rw [List.mem_singleton] at hd
      have hsrc := hInv.queue_ready n hn_mem_queue e he hd
      have h1 : List.Sublist [e.srcNode] st.schedule := List.singleton_sublist.mpr hsrc
      have h2 : List.Sublist [e.dstNode] [n] := by
        rw [hd]
      exact h1.append h2

theorem kahnLoop_inv (g : Graph)
    (hdst : ∀ e2 ∈ g.edges, e2.dstNode ∈ g.nodeIds) :
    ∀ (fuel : Nat) (st : KahnState), KahnInv g st →
      KahnInv g (kahnLoop g true fuel st)
  | 0, st, h => by simpa [kahnLoop] using h
  | fuel + 1, st, h => by
    match hq : st.queue with
    | [] => simpa [kahnLoop, hq] using h
    | n :: rest =>
      have hstep := kahnStep_inv g st hdst h n rest hq
      have hrec := kahnLoop_inv g hdst fuel _ hstep
      simpa [kahnLoop, hq] using hrec

theorem kahnLoop_schedule_prefix (g : Graph) (b : Bool) :
    ∀ (fuel : Nat) (st : KahnState),
      ∃ t, (kahnLoop g b fuel st).schedule = st.schedule ++ t
  | 0, st => ⟨[], by simp [kahnLoop]⟩
  | fuel + 1, st => by
    match hq : st.queue with
    | [] => exact ⟨[], by simp [kahnLoop, hq]⟩
    | n :: rest =>
      obtain ⟨t, ht⟩ := kahnLoop_schedule_prefix g b fuel
        { indeg := (processOutgoing (g.outgoing n) st.indeg rest).1,
          queue := (processOutgoing (g.outgoing n) st.indeg rest).2,
          schedule := if b then st.schedule ++ [n] else st.schedule,
          numVisited := st.numVisited + 1 }
      refine ⟨(if b then [n] else []) ++ t, ?_⟩
      rw [show kahnLoop g b (fuel + 1) st = kahnLoop g b fuel
        { indeg := (processOutgoing (g.outgoing n) st.indeg rest).1,
          queue := (processOutgoing (g.outgoing n) st.indeg rest).2,
          schedule := if b then st.schedule ++ [n] else st.schedule,
          numVisited := st.numVisited + 1 } from by simp [kahnLoop, hq]]
      rw [ht]
      cases b <;> simp

theorem sortTopologically_ok_inv (g : Graph) (order : List Nat)
    (h : sortTopologically g = .ok order) :
    order = (kahnLoop g true (kahnFuel g) (initKahnState g)).schedule ∧
    (kahnLoop g true (kahnFuel g) (initKahnState g)).queue = [] ∧
    (kahnLoop g true (kahnFuel g) (initKahnState g)).numVisited = g.nodes.length := by
  simp only [sortTopologically] at h
  split at h
  next hc =>
    injection h with h
    subst h
    simp only [Bool.and_eq_true, beq_iff_eq, List.isEmpty_iff] at hc
    exact ⟨rfl, hc.1, hc.2⟩
  next hc => cases h

theorem kahn_final (g : Graph) (hnodup : g.nodeIds.Nodup)
    (hdst : ∀ e2 ∈ g.edges, e2.dstNode ∈ g.nodeIds)
    (order : List Nat) (hok : sortTopologically g = .ok order) :
    (∀ x ∈ g.nodeIds, x ∈ order) ∧
    (∀ e ∈ g.edges, e.dstNode ∈ order → List.Sublist [e.srcNode, e.dstNode] order) := by
  obtain ⟨horder, hqe, hnv⟩ := sortTopologically_ok_inv g order hok
  have hInv := kahnLoop_inv g hdst (kahnFuel g) (initKahnState g) (initKahnInv g hnodup)
  have hschedNodup : (kahnLoop g true (kahnFuel g) (initKahnState g)).schedule.Nodup := by
    have hh := hInv.nodup
    rw [List.nodup_append] at hh
    exact hh.1
  have hsub : (kahnLoop g true (kahnFuel g) (initKahnState g)).schedule ⊆ g.nodeIds :=
    fun x hx => hInv.sched_nodes x hx
  have hlen : g.nodeIds.length ≤
      (kahnLoop g true (kahnFuel g) (initKahnState g)).schedule.length := by
    have h1 := hInv.visited_eq
    rw [hnv] at h1
    rw [← h1]
    simp [Graph.nodeIds]
  have hperm : (kahnLoop g true (kahnFuel g) (initKahnState g)).schedule.Perm g.nodeIds :=
    (List.subperm_of_subset hschedNodup hsub).perm_of_length_le hlen
  subst horder
  constructor
  · intro x hx
    exact hperm.mem_iff.mpr hx
  · intro e he hd
    exact hInv.sched_ordered e he hd

theorem pair_sublist_get? {α : Type} (a b : α) :
    ∀ (l : List α), List.Sublist [a, b] l →
      ∃ i j, i < j ∧ l.get? i = some a ∧ l.get? j = some b
  | [], h => by cases h
  | x :: xs, h => by
    cases h with
    | cons _ h2 =>
      obtain ⟨i, j, hij, ha, hb⟩ := pair_sublist_get? a b xs h2
      exact ⟨i + 1, j + 1, by omega, ha, hb⟩
    | cons₂ _ h2 =>
      have hbmem : b ∈ xs := h2.subset (List.mem_singleton.mpr rfl)
      obtain ⟨j, hj⟩ := List.get?_of_mem hbmem
      exact ⟨0, j + 1, by omega, rfl, by simpa using hj⟩

/-! ## The solve pass: schedule ids and compile inversion -/

theorem except_bind_ok {ε α β : Type} (a : α) (f : α → Except ε β) :
    (Except.ok a >>= f) = f a := rfl

theorem except_bind_error {ε α β : Type} (e : ε) (f : α → Except ε β) :
    ((Except.error e : Except ε α) >>= f) = Except.error e := rfl

theorem except_pure {ε α : Type} (a : α) : (pure a : Except ε α) = .ok a := rfl

theorem solveNode_ok_schedule (g : Graph) (st : SolveState) (n : Nat) (st1 : SolveState)
    (h : solveNode g st n = .ok st1) :
    ∃ ins outs, st1.schedule = st.schedule ++ [⟨n, ins, outs⟩] := by
  unfold solveNode at h
  split at h
  · simp at h
  · split at h
    · simp at h
    · injection h with h
      subst h
      exact ⟨_, _, rfl⟩

theorem solveOrder_ids (g : Graph) :
    ∀ (order : List Nat) (st0 st : SolveState),
      solveOrder g order st0 = .ok st →
      st.schedule.map (fun sn => sn.id) = st0.schedule.map (fun sn => sn.id) ++ order
  | [], st0, st, h => by
    injection h with h
    subst h
    simp
  | n :: rest, st0, st, h => by
    unfold solveOrder at h
    cases hs : solveNode g st0 n with
    | error e =>
      rw [hs] at h
      cases h
    | ok st1 =>
      rw [hs] at h
      have hids := solveOrder_ids g rest st1 st h
      obtain ⟨ins, outs, hsch⟩ := solveNode_ok_schedule g st0 n st1 hs
      rw [hids, hsch]
      simp

theorem compile_ok_inv (g : Graph) (cs : CompiledSchedule)
    (h : compile g = .ok cs) :
    preprocessChecks g = true ∧
    ∃ order st, sortTopologically g = .ok order ∧
      solveOrder g order { alloc := ⟨[], 0, 0⟩, table := [], schedule := [] } = .ok st ∧
      cs = ⟨st.schedule, st.alloc.count⟩ := by
  unfold compile preprocessE at h
  cases hc : preprocessChecks g with
  | false =>
    rw [hc] at h
    rw [if_neg (by simp)] at h
    rw [except_bind_error] at h
    cases h
  | true =>
    rw [hc, if_pos rfl, except_bind_ok] at h
    refine ⟨rfl, ?_⟩
    cases hs : sortTopologically g with
    | error e =>
      rw [hs, except_bind_error] at h
      cases h
    | ok order =>
      rw [hs, except_bind_ok] at h
      cases hv : solveOrder g order { alloc := ⟨[], 0, 0⟩, table := [], schedule := [] } with
      | error e =>
        rw [hv, except_bind_error] at h
        cases h
      | ok st =>
        rw [hv, except_bind_ok, except_pure] at h
        injection h with h
        exact ⟨order, st, rfl, hv, h.symm⟩

/-! ## The solve pass: allocator bound (all buffer indices below the
high-water mark) -/

theorem acquire_spec (a : BufferAllocator) :
    a.count ≤ (a.acquire).2.count ∧
    ((∀ b ∈ a.freeList, b.idx < a.count) →
      ((a.acquire).1.idx < (a.acquire).2.count ∧
       ∀ b ∈ (a.acquire).2.freeList, b.idx < (a.acquire).2.count)) := by
  unfold BufferAllocator.acquire
  cases hf : a.freeList with
  | nil =>
    refine ⟨by simp, ?_⟩
    intro _
    constructor
    · simp
    · intro b hb
      simp at hb
  | cons b rest =>
    refine ⟨by simp, ?_⟩
    intro hbound
    constructor
    · exact hbound b (List.mem_cons_self _ _)
    · intro b2 hb2
      exact hbound b2 (List.mem_cons_of_mem _ hb2)

theorem mem_tableInsert {t : List (Nat × Handle)} {k : Nat} {h : Handle}
    {p : Nat × Handle} (hp : p ∈ tableInsert t k h) : p ∈ t ∨ p = (k, h) := by
  unfold tableInsert at hp
  rcases List.mem_cons.mp hp with hp | hp
  · exact Or.inr hp
  · exact Or.inl ((List.filter_sublist t).subset hp)

theorem mem_tableRemove {t : List (Nat × Handle)} {k : Nat}
    {p : Nat × Handle} (hp : p ∈ tableRemove t k) : p ∈ t :=
  (List.filter_sublist t).subset hp

theorem mem_foldl_tableInsert {h : Handle} :
    ∀ (es : List Edge) (t : List (Nat × Handle)) (p : Nat × Handle),
      p ∈ es.foldl (fun t2 e => tableInsert t2 e.id h) t → p ∈ t ∨ p.2 = h
  | [], t, p, hp => Or.inl hp
  | e :: rest, t, p, hp => by
    rcases mem_foldl_tableInsert rest (tableInsert t e.id h) p hp with hp2 | hp2
    · rcases mem_tableInsert hp2 with hp3 | hp3
      · exact Or.inl hp3
      · right
        rw [hp3]
    · exact Or.inr hp2

theorem solveInPort_bound (nid : Nat) (inc : List Edge) (st st1 : NodeSolveState)
    (p : Nat) (h : solveInPort nid inc st p = .ok st1) (hb : NodeBound st) :
    NodeBound st1 ∧ st.alloc.count ≤ st1.alloc.count := by
  obtain ⟨hfree, htab, hpend, hin, hout⟩ := hb
  unfold solveInPort at h
  split at h
  · -- unconnected port: fresh acquire
    injection h with h
    subst h
    obtain ⟨hmono, hspec⟩ := acquire_spec st.alloc
    obtain ⟨hidx, hfree2⟩ := hspec hfree
    refine ⟨⟨hfree2, ?_, ?_, ?_, ?_⟩, hmono⟩
    · intro q hq
      exact lt_of_lt_of_le (htab q hq) hmono
    · intro h2 h2m
      rcases List.mem_append.mp h2m with hm | hm
      · exact lt_of_lt_of_le (hpend h2 hm) hmono
      · rw [List.mem_singleton] at hm
        subst hm
        exact hidx
    · intro a ha
      rcases List.mem_append.mp ha with hm | hm
      · exact lt_of_lt_of_le (hin a hm) hmono
      · rw [List.mem_singleton] at hm
        subst hm
        exact hidx
    · intro a ha
      exact lt_of_lt_of_le (hout a ha) hmono
  · -- single edge: take from the table
    split at h
    · cases h
    next h2 hget =>
      injection h with h
      subst h
      have hh : h2.idx < st.alloc.count := by
        unfold tableGet at hget
        rw [Option.map_eq_some'] at hget
        obtain ⟨q, hfind, hq2⟩ := hget
        rw [← hq2]
        exact htab q (List.mem_of_find?_eq_some hfind)
      refine ⟨⟨hfree, ?_, ?_, ?_, hout⟩, le_refl _⟩
      · intro q hq
        exact htab q (mem_tableRemove hq)
      · intro h3 h3m
        rcases List.mem_append.mp h3m with hm | hm
        · exact hpend h3 hm
        · rw [List.mem_singleton] at hm
          subst hm
          exact hh
      · intro a ha
        rcases List.mem_append.mp ha with hm | hm
        · exact hin a hm
        · rw [List.mem_singleton] at hm
          subst hm
          exact hh
  · cases h

theorem solveOutPort_bound (outg : List Edge) (st : NodeSolveState) (p : Nat)
    (hb : NodeBound st) :
    NodeBound (solveOutPort outg st p) ∧
    st.alloc.count ≤ (solveOutPort outg st p).alloc.count := by
  obtain ⟨hfree, htab, hpend, hin, hout⟩ := hb
  obtain ⟨hmono, hspec⟩ := acquire_spec st.alloc
  obtain ⟨hidx, hfree2⟩ := hspec hfree
  unfold solveOutPort
  dsimp only
  by_cases hemp : (outg.filter (fun e => e.srcPort == p)).isEmpty
  · rw [if_pos hemp]
    refine ⟨⟨hfree2, ?_, ?_, ?_, ?_⟩, hmono⟩
    · intro q hq
      exact lt_of_lt_of_le (htab q hq) hmono
    · intro h2 h2m
      rcases List.mem_append.mp h2m with hm | hm
      · exact lt_of_lt_of_le (hpend h2 hm) hmono
      · rw [List.mem_singleton] at hm
        subst hm
        exact hidx
    · intro a ha
      exact lt_of_lt_of_le (hin a ha) hmono
    · intro a ha
      rcases List.mem_append.mp ha with hm | hm
      · exact lt_of_lt_of_le (hout a hm) hmono
      · rw [List.mem_singleton] at hm
        subst hm
        exact hidx
  · rw [if_neg hemp]
    refine ⟨⟨hfree2, ?_, ?_, ?_, ?_⟩, hmono⟩
    · intro q hq
      rcases mem_foldl_tableInsert _ _ q hq with hm | hm
      · exact lt_of_lt_of_le (htab q hm) hmono
      · rw [hm]
        exact hidx
    · intro h2 h2m
      exact lt_of_lt_of_le (hpend h2 h2m) hmono
    · intro a ha
      exact lt_of_lt_of_le (hin a ha) hmono
    · intro a ha
      rcases List.mem_append.mp ha with hm | hm
      · exact lt_of_lt_of_le (hout a hm) hmono
      · rw [List.mem_singleton] at hm
        subst hm
        exact hidx

theorem runInPorts_bound (nid : Nat) (inc : List Edge) :
    ∀ (ps : List Nat) (st st1 : NodeSolveState),
      runInPorts nid inc ps st = .ok st1 → NodeBound st →
      NodeBound st1 ∧ st.alloc.count ≤ st1.alloc.count
  | [], st, st1, h, hb => by
    injection h with h
    subst h
    exact ⟨hb, le_refl _⟩
  | p :: ps, st, st1, h, hb => by
    unfold runInPorts at h
    cases hs : solveInPort nid inc st p with
    | error e =>
      rw [hs] at h
      cases h
    | ok st2 =>
      rw [hs] at h
      obtain ⟨hb2, hmono2⟩ := solveInPort_bound nid inc st st2 p hs hb
      obtain ⟨hb3, hmono3⟩ := runInPorts_bound nid inc ps st2 st1 h hb2
      exact ⟨hb3, le_trans hmono2 hmono3⟩

theorem runOutPorts_bound (outg : List Edge) :
    ∀ (ps : List Nat) (st : NodeSolveState), NodeBound st →
      NodeBound (runOutPorts outg ps st) ∧
      st.alloc.count ≤ (runOutPorts outg ps st).alloc.count
  | [], st, hb => ⟨hb, le_refl _⟩
  | p :: ps, st, hb => by
    obtain ⟨hb2, hmono2⟩ := solveOutPort_bound outg st p hb
    obtain ⟨hb3, hmono3⟩ := runOutPorts_bound outg ps (solveOutPort outg st p) hb2
    exact ⟨hb3, le_trans hmono2 hmono3⟩

theorem releaseAll_bound (t : List (Nat × Handle)) :
    ∀ (pending : List Handle) (a : BufferAllocator),
      (∀ b ∈ a.freeList, b.idx < a.count) → (∀ h ∈ pending, h.idx < a.count) →
      ((∀ b ∈ (releaseAll t pending a).freeList, b.idx < (releaseAll t pending a).count) ∧
       (releaseAll t pending a).count = a.count)
  | [], a, hfree, _ => ⟨hfree, rfl⟩
  | h :: rest, a, hfree, hpend => by
    unfold releaseAll
    split
    · refine releaseAll_bound t rest _ ?_ ?_
      · intro b hb
        rcases List.mem_cons.mp hb with hb | hb
        · subst hb
          exact hpend h (List.mem_cons_self _ _)
        · exact hfree b hb
      · intro h2 hm
        exact hpend h2 (List.mem_cons_of_mem _ hm)
    · exact releaseAll_bound t rest a hfree
        (fun h2 hm => hpend h2 (List.mem_cons_of_mem _ hm))

theorem solveNode_bound (g : Graph) (st : SolveState) (n : Nat) (st1 : SolveState)
    (h : solveNode g st n = .ok st1) (hb : SolveBound st) :
    SolveBound st1 ∧ st.alloc.count ≤ st1.alloc.count := by
  obtain ⟨hfree, htab, hsched⟩ := hb
  unfold solveNode at h
  split at h
  · cases h
  next entry heq =>
    cases hr : runInPorts n (g.incoming n) (List.range entry.numInputs)
        { alloc := st.alloc, table := st.table, pending := [],
          inAssign := [], outAssign := [] } with
    | error e =>
      rw [hr] at h
      cases h
    | ok ns1 =>
      rw [hr] at h
      injection h with h
      subst h
      have hb0 : NodeBound ⟨st.alloc, st.table, [], [], []⟩ := by
        refine ⟨hfree, htab, ?_, ?_, ?_⟩ <;> intro x hx <;> cases hx
      obtain ⟨hb1, hmono1⟩ := runInPorts_bound n (g.incoming n) (List.range entry.numInputs)
        _ ns1 hr hb0
      obtain ⟨hb2, hmono2⟩ := runOutPorts_bound (g.outgoing n) (List.range entry.numOutputs)
        ns1 hb1
      obtain ⟨hfree2, htab2, hpend2, hin2, hout2⟩ := hb2
      set ns2 := runOutPorts (g.outgoing n) (List.range entry.numOutputs) ns1 with hns2
      obtain ⟨hfree3, hcount3⟩ := releaseAll_bound ns2.table ns2.pending ns2.alloc hfree2 hpend2
      have hmono : st.alloc.count ≤ ns2.alloc.count := le_trans hmono1 hmono2
      refine ⟨⟨?_, ?_, ?_⟩, ?_⟩
      · exact hfree3
      · intro q hq
        rw [hcount3]
        exact htab2 q hq
      · intro sn hsn
        rcases List.mem_append.mp hsn with hm | hm
        · obtain ⟨h1, h2⟩ := hsched sn hm
          constructor
          · intro a ha
            rw [hcount3]
            exact lt_of_lt_of_le (h1 a ha) hmono
          · intro a ha
            rw [hcount3]
            exact lt_of_lt_of_le (h2 a ha) hmono
        · rw [List.mem_singleton] at hm
          subst hm
          constructor
          · intro a ha
            rw [hcount3]
            exact hin2 a ha
          · intro a ha
            rw [hcount3]
            exact hout2 a ha
      · rw [hcount3]
        exact hmono

theorem solveOrder_bound (g : Graph) :
    ∀ (order : List Nat) (st0 st : SolveState),
      solveOrder g order st0 = .ok st → SolveBound st0 →
      SolveBound st ∧ st0.alloc.count ≤ st.alloc.count
  | [], st0, st, h, hb => by
    injection h with h
    subst h
    exact ⟨hb, le_refl _⟩
  | n :: rest, st0, st, h, hb => by
    unfold solveOrder at h
    cases hs : solveNode g st0 n with
    | error e =>
      rw [hs] at h
      cases h
    | ok st1 =>
      rw [hs] at h
      obtain ⟨hb1, hm1⟩ := solveNode_bound g st0 n st1 hs hb
      obtain ⟨hb2, hm2⟩ := solveOrder_bound g rest st1 st h hb1
      exact ⟨hb2, le_trans hm1 hm2⟩

/-! ## The solve pass: the edge-to-buffer assignment table -/

theorem find?_filter_of_imp {α : Type} (p q : α → Bool)
    (himp : ∀ a, p a = true → q a = true) :
    ∀ l : List α, (l.filter q).find? p = l.find? p
  | [] => rfl
  | x :: xs => by
    by_cases hq : q x
    · rw [List.filter_cons_of_pos hq]
      by_cases hp : p x
      · rw [List.find?_cons_of_pos _ hp, List.find?_cons_of_pos _ hp]
      · rw [List.find?_cons_of_neg _ hp, List.find?_cons_of_neg _ hp,
          find?_filter_of_imp p q himp xs]
    · have hp : ¬ p x = true := fun hpx => hq (himp x hpx)
      rw [List.filter_cons_of_neg hq, List.find?_cons_of_neg _ hp,
        find?_filter_of_imp p q himp xs]

theorem tableGet_remove_self (t : List (Nat × Handle)) (k : Nat) :
    tableGet (tableRemove t k) k = none := by
  unfold tableGet tableRemove
  rw [Option.map_eq_none']
  rw [List.find?_eq_none]
  intro x hx
  have hmem := List.mem_filter.mp hx
  simp only [bne_iff_ne, ne_eq, decide_eq_true_eq] at hmem ⊢
  exact hmem.2

theorem tableGet_remove_ne (t : List (Nat × Handle)) (k k' : Nat) (hne : k' ≠ k) :
    tableGet (tableRemove t k) k' = tableGet t k' := by
  unfold tableGet tableRemove
  rw [find?_filter_of_imp]
  intro a ha
  simp only [decide_eq_true_eq] at ha
  simp only [bne_iff_ne, ne_eq]
  rw [ha]
  exact hne

theorem tableGet_insert_self (t : List (Nat × Handle)) (k : Nat) (h : Handle) :
    tableGet (tableInsert t k h) k = some h := by
  unfold tableGet tableInsert
  rw [List.find?_cons_of_pos _ (by simp)]
  rfl

theorem tableGet_insert_ne (t : List (Nat × Handle)) (k : Nat) (h : Handle) (k' : Nat)
    (hne : k' ≠ k) :
    tableGet (tableInsert t k h) k' = tableGet t k' := by
  unfold tableGet tableInsert
  rw [List.find?_cons_of_neg _ (by simpa using fun hk => hne hk.symm)]
  have hrem : List.find? (fun p => decide (p.1 = k')) (t.filter (fun p => p.1 != k)) =
      List.find? (fun p => decide (p.1 = k')) t := by
    apply find?_filter_of_imp
    intro a ha
    simp only [decide_eq_true_eq] at ha
    simp only [bne_iff_ne, ne_eq]
    rw [ha]
    exact hne
  rw [hrem]

theorem tableGet_foldl_insert (h : Handle) :
    ∀ (es : List Edge) (t : List (Nat × Handle)) (k : Nat),
      tableGet (es.foldl (fun t2 e => tableInsert t2 e.id h) t) k =
        if ∃ e ∈ es, e.id = k then some h else tableGet t k
  | [], t, k => by simp
  | e :: rest, t, k => by
    rw [List.foldl_cons, tableGet_foldl_insert h rest (tableInsert t e.id h) k]
    by_cases hrest : ∃ e2 ∈ rest, e2.id = k
    · have hall : ∃ e2 ∈ e :: rest, e2.id = k := by
        obtain ⟨e2, hm, hid⟩ := hrest
        exact ⟨e2, List.mem_cons_of_mem _ hm, hid⟩
      rw [if_pos hrest, if_pos hall]
    · rw [if_neg hrest]
      by_cases hek : e.id = k
      · have hall : ∃ e2 ∈ e :: rest, e2.id = k := ⟨e, List.mem_cons_self _ _, hek⟩
        rw [if_pos hall]
        subst hek
        exact tableGet_insert_self t e.id h
      · have hall : ¬ ∃ e2 ∈ e :: rest, e2.id = k := by
          rintro ⟨e2, he2, hid⟩
          rcases List.mem_cons.mp he2 with he2 | he2
          · subst he2
            exact hek hid
          · exact hrest ⟨e2, he2, hid⟩
        rw [if_neg hall]
        exact tableGet_insert_ne t e.id h k (fun hk => hek hk.symm)

theorem find?_append_left {α : Type} (p : α → Bool) (l1 l2 : List α)
    (h : (l1.find? p).isSome) : (l1 ++ l2).find? p = l1.find? p := by
  rw [List.find?_append]
  cases hf : l1.find? p with
  | none =>
    rw [hf] at h
    cases h
  | some a => rfl

theorem find?_append_right_none {α : Type} (p : α → Bool) (l1 l2 : List α)
    (h : l1.find? p = none) : (l1 ++ l2).find? p = l2.find? p := by
  rw [List.find?_append, h]
  rfl

theorem sched_find?_isSome (sched : List ScheduledNode) (n : Nat)
    (hn : n ∈ sched.map (fun sn => sn.id)) :
    (sched.find? (fun sn => sn.id = n)).isSome := by
  rw [List.find?_isSome]
  obtain ⟨sn, hsn, hid⟩ := List.mem_map.mp hn
  exact ⟨sn, hsn, by simp [hid]⟩

theorem sched_find?_none (sched : List ScheduledNode) (n : Nat)
    (hn : n ∉ sched.map (fun sn => sn.id)) :
    sched.find? (fun sn => sn.id = n) = none := by
  rw [List.find?_eq_none]
  intro sn hsn
  simp only [decide_eq_true_eq]
  intro hid
  exact hn (List.mem_map.mpr ⟨sn, hsn, hid⟩)

theorem outIdxAt_append_left (sched tail : List ScheduledNode) (n p : Nat)
    (hn : n ∈ sched.map (fun sn => sn.id)) :
    outIdxAt (sched ++ tail) n p = outIdxAt sched n p := by
  unfold outIdxAt
  rw [find?_append_left _ _ _ (sched_find?_isSome sched n hn)]

theorem inIdxAt_append_left (sched tail : List ScheduledNode) (n p : Nat)
    (hn : n ∈ sched.map (fun sn => sn.id)) :
    inIdxAt (sched ++ tail) n p = inIdxAt sched n p := by
  unfold inIdxAt
  rw [find?_append_left _ _ _ (sched_find?_isSome sched n hn)]

theorem outIdxAt_append_new (sched : List ScheduledNode) (new : ScheduledNode) (p : Nat)
    (hn : new.id ∉ sched.map (fun sn => sn.id)) :
    outIdxAt (sched ++ [new]) new.id p =
      (new.outputBuffers.get? p).map (fun a => a.bufferIndex) := by
  unfold outIdxAt
  rw [find?_append_right_none _ _ _ (sched_find?_none sched new.id hn),
    List.find?_cons_of_pos _ (by simp)]
  rfl

theorem inIdxAt_append_new (sched : List ScheduledNode) (new : ScheduledNode) (p : Nat)
    (hn : new.id ∉ sched.map (fun sn => sn.id)) :
    inIdxAt (sched ++ [new]) new.id p =
      (new.inputBuffers.get? p).map (fun a => a.bufferIndex) := by
  unfold inIdxAt
  rw [find?_append_right_none _ _ _ (sched_find?_none sched new.id hn),
    List.find?_cons_of_pos _ (by simp)]
  rfl

theorem outIdxAt_mem (sched : List ScheduledNode) (n p k : Nat)
    (h : outIdxAt sched n p = some k) : n ∈ sched.map (fun sn => sn.id) := by
  unfold outIdxAt at h
  cases hf : sched.find? (fun sn => sn.id = n) with
  | none =>
    rw [hf] at h
    cases h
  | some sn =>
    have hmem := List.mem_of_find?_eq_some hf
    have hpred := List.find?_some hf
    simp only [decide_eq_true_eq] at hpred
    exact List.mem_map.mpr ⟨sn, hmem, hpred⟩

theorem inIdxAt_mem (sched : List ScheduledNode) (n p k : Nat)
    (h : inIdxAt sched n p = some k) : n ∈ sched.map (fun sn => sn.id) := by
  unfold inIdxAt at h
  cases hf : sched.find? (fun sn => sn.id = n) with
  | none =>
    rw [hf] at h
    cases h
  | some sn =>
    have hmem := List.mem_of_find?_eq_some hf
    have hpred := List.find?_some hf
    simp only [decide_eq_true_eq] at hpred
    exact List.mem_map.mpr ⟨sn, hmem, hpred⟩

theorem eq_of_pairwise_ne_id {l : List Edge}
    (hl : l.Pairwise (fun a b => a.id ≠ b.id)) :
    ∀ {e1 e2 : Edge}, e1 ∈ l → e2 ∈ l → e1.id = e2.id → e1 = e2 := by
  induction l with
  | nil =>
    intro e1 e2 h
    cases h
  | cons x xs ih =>
    intro e1 e2 h1 h2 heq
    rcases List.mem_cons.mp h1 with he1 | ht1
    · rcases List.mem_cons.mp h2 with he2 | ht2
      · rw [he1, he2]
      · subst he1
        exact absurd heq (List.rel_of_pairwise_cons hl ht2)
    · rcases List.mem_cons.mp h2 with he2 | ht2
      · subst he2
        exact absurd heq.symm (List.rel_of_pairwise_cons hl ht1)
      · exact ih hl.of_cons ht1 ht2 heq

/-- What the input-port loop of one node does to the state, on success:
the output assignments are untouched, one input assignment is pushed per
port, the assignment table only loses entries, and for every port fed by an
edge the edge's table entry (present since before the loop) is consumed and
its buffer index recorded at that port's position. -/
theorem runInPorts_spec (nid : Nat) (inc : List Edge) :
    ∀ (ps : List Nat) (st0 st1 : NodeSolveState),
      runInPorts nid inc ps st0 = .ok st1 →
      st1.outAssign = st0.outAssign ∧
      (∃ tail, st1.inAssign = st0.inAssign ++ tail ∧ tail.length = ps.length) ∧
      (∀ k, tableGet st1.table k = tableGet st0.table k ∨ tableGet st1.table k = none) ∧
      (∀ i p, ps.get? i = some p → ∀ e ∈ inc, e.dstPort = p →
        ∃ h, tableGet st0.table e.id = some h ∧
          st1.inAssign.get? (st0.inAssign.length + i) =
            some ⟨h.idx, false, h.generation⟩ ∧
          tableGet st1.table e.id = none)
  | [], st0, st1, h => by
    injection h with h
    subst h
    refine ⟨rfl, ⟨[], by simp, rfl⟩, fun k => Or.inl rfl, ?_⟩
    intro i p hp
    simp at hp
  | p :: ps, st0, st1, h => by
    unfold runInPorts at h
    cases hs : solveInPort nid inc st0 p with
    | error e =>
      rw [hs] at h
      cases h
    | ok st2 =>
      rw [hs] at h
      obtain ⟨ihout, ⟨tail, ihin, ihlen⟩, ihtab, ihport⟩ :=
        runInPorts_spec nid inc ps st2 st1 h
      unfold solveInPort at hs
      split at hs
      next hfil =>
        -- no incoming edge on this port: fresh acquire, table untouched
        injection hs with hs
        have ht : st2.table = st0.table := by rw [← hs]
        have hi : st2.inAssign = st0.inAssign ++
            [⟨(st0.alloc.acquire).1.idx, true, (st0.alloc.acquire).1.generation⟩] := by
          rw [← hs]
        have ho : st2.outAssign = st0.outAssign := by rw [← hs]
        have hlen2 : st2.inAssign.length = st0.inAssign.length + 1 := by
          rw [hi]
          simp
        refine ⟨by rw [ihout, ho], ?_, ?_, ?_⟩
        · refine ⟨⟨(st0.alloc.acquire).1.idx, true, (st0.alloc.acquire).1.generation⟩ ::
            tail, ?_, by simp [ihlen]⟩
          rw [ihin, hi]
          simp
        · intro k
          rw [← ht]
          exact ihtab k
        · intro i p2 hp2 e he hdp
          match i, hp2 with
          | 0, hp2 =>
            exfalso
            have hp2e : p2 = p := by
              simp at hp2
              exact hp2.symm
            have hmem : e ∈ inc.filter (fun e2 => e2.dstPort == p) :=
              List.mem_filter.mpr ⟨he, by simp [hdp, hp2e.symm.trans hdp.symm]⟩
            rw [hfil] at hmem
            cases hmem
          | j + 1, hp2 =>
            have hp2j : ps.get? j = some p2 := by simpa using hp2
            obtain ⟨hh, htab2, hpos, hnone⟩ := ihport j p2 hp2j e he hdp
            rw [ht] at htab2
            rw [hlen2] at hpos
            refine ⟨hh, htab2, ?_, hnone⟩
            have harith : st0.inAssign.length + (j + 1) =
                st0.inAssign.length + 1 + j := by omega
            rw [harith]
            exact hpos
      next e1 hfil =>
        -- exactly one incoming edge: take its handle from the table
        split at hs
        next hget =>
          simp at hs
        next h2 hget =>
          injection hs with hs
          have ht : st2.table = tableRemove st0.table e1.id := by rw [← hs]
          have hi : st2.inAssign = st0.inAssign ++ [⟨h2.idx, false, h2.generation⟩] := by
            rw [← hs]
          have ho : st2.outAssign = st0.outAssign := by rw [← hs]
          have hlen2 : st2.inAssign.length = st0.inAssign.length + 1 := by
            rw [hi]
            simp
          refine ⟨by rw [ihout, ho], ?_, ?_, ?_⟩
          · refine ⟨⟨h2.idx, false, h2.generation⟩ :: tail, ?_, by simp [ihlen]⟩
            rw [ihin, hi]
            simp
          · intro k
            by_cases hk : k = e1.id
            · rcases ihtab k with h3 | h3
              · right
                rw [h3, ht, hk]
                exact tableGet_remove_self st0.table e1.id
              · exact Or.inr h3
            · rcases ihtab k with h3 | h3
              · left
                rw [h3, ht]
                exact tableGet_remove_ne st0.table e1.id k hk
              · exact Or.inr h3
          · intro i p2 hp2 e he hdp
            match i, hp2 with
            | 0, hp2 =>
              have hp2e : p2 = p := by
                simp at hp2
                exact hp2.symm
              have hmem : e ∈ inc.filter (fun e2 => e2.dstPort == p) :=
                List.mem_filter.mpr ⟨he, by simp [hdp, hp2e.symm.trans hdp.symm]⟩
              rw [hfil, List.mem_singleton] at hmem
              subst hmem
              refine ⟨h2, hget, ?_, ?_⟩
              · rw [ihin, hi]
                have hq : ((st0.inAssign ++ [(⟨h2.idx, false, h2.generation⟩ :
                    InBufferAssignment)]) ++ tail).get? (st0.inAssign.length + 0) =
                    some ⟨h2.idx, false, h2.generation⟩ := by
                  rw [List.get?_append (by simp)]
                  simpa using List.get?_concat_length st0.inAssign
                    (⟨h2.idx, false, h2.generation⟩ : InBufferAssignment)
                exact hq
              · rcases ihtab e.id with h3 | h3
                · rw [h3, ht]
                  exact tableGet_remove_self st0.table e.id
                · exact h3
            | j + 1, hp2 =>
              have hp2j : ps.get? j = some p2 := by simpa using hp2
              obtain ⟨hh, htab2, hpos, hnone⟩ := ihport j p2 hp2j e he hdp
              rw [ht] at htab2
              by_cases hk : e.id = e1.id
              · rw [hk, tableGet_remove_self] at htab2
                cases htab2
              · rw [tableGet_remove_ne st0.table e1.id e.id hk] at htab2
                rw [hlen2] at hpos
                refine ⟨hh, htab2, ?_, hnone⟩
                have harith : st0.inAssign.length + (j + 1) =
                    st0.inAssign.length + 1 + j := by omega
                rw [harith]
                exact hpos
      next hfil =>
        simp at hs

/-- What the output-port loop of one node does to the state: the input
assignments are untouched, one output assignment is pushed per port, and
every entry of the final assignment table either predates the loop or was
inserted for an outgoing edge of one of the ports, with the acquired buffer
index recorded at that port's position. -/
theorem runOutPorts_spec (outg : List Edge) :
    ∀ (ps : List Nat) (st0 : NodeSolveState),
      (runOutPorts outg ps st0).inAssign = st0.inAssign ∧
      (∃ tail, (runOutPorts outg ps st0).outAssign = st0.outAssign ++ tail ∧
        tail.length = ps.length) ∧
      (∀ k h, tableGet (runOutPorts outg ps st0).table k = some h →
        tableGet st0.table k = some h ∨
        ∃ e ∈ outg, e.id = k ∧ ∃ i p, ps.get? i = some p ∧ e.srcPort = p ∧
          (runOutPorts outg ps st0).outAssign.get? (st0.outAssign.length + i) =
            some ⟨h.idx, h.generation⟩)
  | [], st0 => by
    refine ⟨rfl, ⟨[], ?_, rfl⟩, ?_⟩
    · show st0.outAssign = st0.outAssign ++ []
      rw [List.append_nil]
    · intro k h hk
      exact Or.inl hk
  | p :: ps, st0 => by
    have hru : runOutPorts outg (p :: ps) st0 =
        runOutPorts outg ps (solveOutPort outg st0 p) := rfl
    obtain ⟨ihin, ⟨tail, ihout, ihlen⟩, ihtab⟩ :=
      runOutPorts_spec outg ps (solveOutPort outg st0 p)
    rw [hru]
    by_cases hemp : (outg.filter (fun e => e.srcPort == p)).isEmpty
    · have h2i : (solveOutPort outg st0 p).inAssign = st0.inAssign := by
        unfold solveOutPort
        dsimp only
        rw [if_pos hemp]
      have h2t : (solveOutPort outg st0 p).table = st0.table := by
        unfold solveOutPort
        dsimp only
        rw [if_pos hemp]
      have h2o : (solveOutPort outg st0 p).outAssign = st0.outAssign ++
          [⟨(st0.alloc.acquire).1.idx, (st0.alloc.acquire).1.generation⟩] := by
        unfold solveOutPort
        dsimp only
        rw [if_pos hemp]
      have h2len : (solveOutPort outg st0 p).outAssign.length =
          st0.outAssign.length + 1 := by
        rw [h2o]
        simp
      refine ⟨by rw [ihin, h2i], ?_, ?_⟩
      · exact ⟨⟨(st0.alloc.acquire).1.idx, (st0.alloc.acquire).1.generation⟩ :: tail,
          by rw [ihout, h2o]; simp, by simp [ihlen]⟩
      · intro k h hk
        rcases ihtab k h hk with hl | ⟨e, he, heid, i, p2, hp2, hsp, hpos⟩
        · rw [h2t] at hl
          exact Or.inl hl
        · refine Or.inr ⟨e, he, heid, i + 1, p2, by simpa using hp2, hsp, ?_⟩
          rw [h2len] at hpos
          have harith : st0.outAssign.length + (i + 1) =
              st0.outAssign.length + 1 + i := by omega
          rw [harith]
          exact hpos
    · have h2i : (solveOutPort outg st0 p).inAssign = st0.inAssign := by
        unfold solveOutPort
        dsimp only
        rw [if_neg hemp]
      have h2t : (solveOutPort outg st0 p).table =
          (outg.filter (fun e => e.srcPort == p)).foldl
            (fun t e => tableInsert t e.id (st0.alloc.acquire).1) st0.table := by
        unfold solveOutPort
        dsimp only
        rw [if_neg hemp]
      have h2o : (solveOutPort outg st0 p).outAssign = st0.outAssign ++
          [⟨(st0.alloc.acquire).1.idx, (st0.alloc.acquire).1.generation⟩] := by
        unfold solveOutPort
        dsimp only
        rw [if_neg hemp]
      have h2len : (solveOutPort outg st0 p).outAssign.length =
          st0.outAssign.length + 1 := by
        rw [h2o]
        simp
      refine ⟨by rw [ihin, h2i], ?_, ?_⟩
      · exact ⟨⟨(st0.alloc.acquire).1.idx, (st0.alloc.acquire).1.generation⟩ :: tail,
          by rw [ihout, h2o]; simp, by simp [ihlen]⟩
      · intro k h hk
        rcases ihtab k h hk with hl | ⟨e, he, heid, i, p2, hp2, hsp, hpos⟩
        · rw [h2t, tableGet_foldl_insert] at hl
          by_cases hex : ∃ e ∈ outg.filter (fun e2 => e2.srcPort == p), e.id = k
          · rw [if_pos hex] at hl
            injection hl with hl
            obtain ⟨e, hef, heid⟩ := hex
            have hmem := List.mem_filter.mp hef
            refine Or.inr ⟨e, hmem.1, heid, 0, p, rfl, by simpa using hmem.2, ?_⟩
            rw [Nat.add_zero, ihout, h2o]
            rw [List.get?_append (by simp)]
            rw [← hl]
            exact List.get?_concat_length st0.outAssign
              ⟨(st0.alloc.acquire).1.idx, (st0.alloc.acquire).1.generation⟩
          · rw [if_neg hex] at hl
            exact Or.inl hl
        · refine Or.inr ⟨e, he, heid, i + 1, p2, by simpa using hp2, hsp, ?_⟩
          rw [h2len] at hpos
          have harith : st0.outAssign.length + (i + 1) =
              st0.outAssign.length + 1 + i := by omega
          rw [harith]
          exact hpos

/-- One step of the solve pass preserves `SolveTrack`: assigning the buffers
of a not-yet-scheduled node `n` keeps every table entry tied to its source
port's recorded index, and gives every edge into `n` matching indices at both
endpoints (its table entry, deposited when the source node's output port was
solved, is consumed by `n`'s input-port loop). -/
theorem solveNode_track (g : Graph) (done : List Nat) (st st1 : SolveState) (n : Nat)
    (hedgeids : g.edges.Pairwise (fun a b => a.id ≠ b.id))
    (hports : ∀ e2 ∈ g.edges, ∀ de, g.findNode e2.dstNode = some de →
      e2.dstPort < de.numInputs)
    (hn : n ∉ done)
    (htr : SolveTrack g done st)
    (h : solveNode g st n = .ok st1) :
    SolveTrack g (done ++ [n]) st1 := by
  obtain ⟨hids, htab, hdone⟩ := htr
  unfold solveNode at h
  split at h
  · simp at h
  next entry hfind =>
    cases hrun : runInPorts n (g.incoming n) (List.range entry.numInputs)
        ⟨st.alloc, st.table, [], [], []⟩ with
    | error e =>
      rw [hrun] at h
      cases h
    | ok ns1 =>
      rw [hrun] at h
      injection h with h
      obtain ⟨hiout, ⟨itail, hiin, hilen⟩, hitab, hiport⟩ :=
        runInPorts_spec n (g.incoming n) (List.range entry.numInputs)
          ⟨st.alloc, st.table, [], [], []⟩ ns1 hrun
      obtain ⟨hoin, ⟨otail, hoout, holen⟩, hotab⟩ :=
        runOutPorts_spec (g.outgoing n) (List.range entry.numOutputs) ns1
      set ns2 := runOutPorts (g.outgoing n) (List.range entry.numOutputs) ns1 with hns2
      have hsch : st1.schedule = st.schedule ++ [⟨n, ns2.inAssign, ns2.outAssign⟩] := by
        rw [← h]
      have htb : st1.table = ns2.table := by
        rw [← h]
      have hnotin : n ∉ st.schedule.map (fun sn => sn.id) := by
        rw [hids]
        exact hn
      have hlen0 : ns1.outAssign.length = 0 := by
        rw [hiout]
        rfl
      refine ⟨?_, ?_, ?_⟩
      · rw [hsch]
        simp [hids]
      · intro k hh hget
        rw [htb] at hget
        rcases hotab k hh hget with hl | ⟨e, heo, heid, i, p2, hp2, hsp, hpos⟩
        · rcases hitab k with he1 | he1
          · rw [he1] at hl
            obtain ⟨e, he, heid, hsrcdone, hout⟩ := htab k hh hl
            refine ⟨e, he, heid, List.mem_append_left _ hsrcdone, ?_⟩
            rw [hsch, outIdxAt_append_left _ _ _ _ (by rw [hids]; exact hsrcdone)]
            exact hout
          · rw [he1] at hl
            cases hl
        · have hmemo := List.mem_filter.mp heo
          have hsrc_n : e.srcNode = n := by simpa using hmemo.2
          have hi_lt : i < entry.numOutputs := by
            by_contra hge
            rw [List.get?_eq_none.mpr (by simpa using Nat.le_of_not_lt hge)] at hp2
            cases hp2
          rw [List.get?_range hi_lt] at hp2
          injection hp2 with hp2
          rw [hlen0, Nat.zero_add] at hpos
          have hget2 : ns2.outAssign.get? e.srcPort = some ⟨hh.idx, hh.generation⟩ := by
            rw [hsp, ← hp2]
            exact hpos
          refine ⟨e, hmemo.1, heid, ?_, ?_⟩
          · rw [hsrc_n]
            exact List.mem_append_right _ (List.mem_singleton.mpr rfl)
          · rw [hsch, hsrc_n]
            exact (outIdxAt_append_new st.schedule ⟨n, ns2.inAssign, ns2.outAssign⟩
              e.srcPort hnotin).trans
              (by
                show ((ns2.outAssign.get? e.srcPort).map (fun a => a.bufferIndex)) =
                  some hh.idx
                rw [hget2]
                rfl)
      · intro e he hd
        rcases List.mem_append.mp hd with hdold | hdnew
        · obtain ⟨k, hko, hki⟩ := hdone e he hdold
          have hsm : e.srcNode ∈ st.schedule.map (fun sn => sn.id) :=
            outIdxAt_mem _ _ _ _ hko
          have hdm : e.dstNode ∈ st.schedule.map (fun sn => sn.id) :=
            inIdxAt_mem _ _ _ _ hki
          refine ⟨k, ?_, ?_⟩
          · rw [hsch, outIdxAt_append_left _ _ _ _ hsm]
            exact hko
          · rw [hsch, inIdxAt_append_left _ _ _ _ hdm]
            exact hki
        · have hdn : e.dstNode = n := by simpa using hdnew
          have hinc : e ∈ g.incoming n := by
            unfold Graph.incoming
            exact List.mem_filter.mpr ⟨he, by simp [hdn]⟩
          have hdport : e.dstPort < entry.numInputs := by
            refine hports e he entry ?_
            rw [hdn]
            exact hfind
          have hp : (List.range entry.numInputs).get? e.dstPort = some e.dstPort :=
            List.get?_range hdport
          obtain ⟨hh, hget0, hposin, _⟩ := hiport e.dstPort e.dstPort hp e hinc rfl
          obtain ⟨e2, he2, he2id, hsrc2, hout2⟩ := htab e.id hh hget0
          have he2e : e2 = e := eq_of_pairwise_ne_id hedgeids he2 he he2id
          rw [he2e] at hsrc2 hout2
          have hposin2 : ns2.inAssign.get? e.dstPort =
              some ⟨hh.idx, false, hh.generation⟩ := by
            rw [hoin]
            simpa using hposin
          refine ⟨hh.idx, ?_, ?_⟩
          · rw [hsch, outIdxAt_append_left _ _ _ _ (by rw [hids]; exact hsrc2)]
            exact hout2
          · rw [hsch, hdn]
            exact (inIdxAt_append_new st.schedule ⟨n, ns2.inAssign, ns2.outAssign⟩
              e.dstPort hnotin).trans
              (by
                show ((ns2.inAssign.get? e.dstPort).map (fun a => a.bufferIndex)) =
                  some hh.idx
                rw [hposin2]
                rfl)

/-- The whole `for entry in &mut self.schedule` loop preserves `SolveTrack`,
accumulating the processed order. -/
theorem solveOrder_track (g : Graph)
    (hedgeids : g.edges.Pairwise (fun a b => a.id ≠ b.id))
    (hports : ∀ e2 ∈ g.edges, ∀ de, g.findNode e2.dstNode = some de →
      e2.dstPort < de.numInputs) :
    ∀ (order done : List Nat) (st st1 : SolveState),
      (∀ x ∈ order, x ∉ done) → order.Nodup →
      SolveTrack g done st →
      solveOrder g order st = .ok st1 →
      SolveTrack g (done ++ order) st1
  | [], done, st, st1, _, _, htr, h => by
    injection h with h
    subst h
    simpa using htr
  | n :: rest, done, st, st1, hdis, hnd, htr, h => by
    unfold solveOrder at h
    cases hs : solveNode g st n with
    | error e =>
      rw [hs] at h
      cases h
    | ok st2 =>
      rw [hs] at h
      have htr2 := solveNode_track g done st st2 n hedgeids hports
        (hdis n (List.mem_cons_self _ _)) htr hs
      have hdis2 : ∀ x ∈ rest, x ∉ done ++ [n] := by
        intro x hx hmem
        rcases List.mem_append.mp hmem with hm | hm
        · exact hdis x (List.mem_cons_of_mem _ hx) hm
        · rw [List.mem_singleton] at hm
          subst hm
          exact (List.nodup_cons.mp hnd).1 hx
      have hrec := solveOrder_track g hedgeids hports rest (done ++ [n]) st2 st1
        hdis2 (List.nodup_cons.mp hnd).2 htr2 h
      have hass : (done ++ [n]) ++ rest = done ++ n :: rest := by simp
      rw [hass] at hrec
      exact hrec

/-- A successful topological sort lists every node at most once (the BFS
invariant keeps `schedule ++ queue` duplicate-free). -/
theorem sortTopologically_nodup (g : Graph) (hnodup : g.nodeIds.Nodup)
    (hdst : ∀ e2 ∈ g.edges, e2.dstNode ∈ g.nodeIds)
    (order : List Nat) (hok : sortTopologically g = .ok order) : order.Nodup := by
  obtain ⟨horder, _, _⟩ := sortTopologically_ok_inv g order hok
  have hInv := kahnLoop_inv g hdst (kahnFuel g) (initKahnState g) (initKahnInv g hnodup)
  have hh := hInv.nodup
  rw [List.nodup_append] at hh
  subst horder
  exact hh.1

/-! ## Claim theorems -/

/-- One step of the BFS loop with a known queue head. -/
theorem kahnLoop_cons (g : Graph) (b : Bool) (fuel : Nat) (st : KahnState)
    (n : Nat) (rest : List Nat) (hq : st.queue = n :: rest) :
    kahnLoop g b (fuel + 1) st = kahnLoop g b fuel
      { indeg := (processOutgoing (g.outgoing n) st.indeg rest).1,
        queue := (processOutgoing (g.outgoing n) st.indeg rest).2,
        schedule := if b then st.schedule ++ [n] else st.schedule,
        numVisited := st.numVisited + 1 } := by
  simp [kahnLoop, hq]

/-- With an empty schedule, the first node the BFS pops heads the final
schedule. -/
theorem kahnLoop_head_of_queue (g : Graph) (fuel : Nat) (st : KahnState)
    (n : Nat) (rest : List Nat) (hq : st.queue = n :: rest) (hsched : st.schedule = []) :
    ∃ t, (kahnLoop g true (fuel + 1) st).schedule = n :: t := by
  rw [kahnLoop_cons g true fuel st n rest hq]
  obtain ⟨t, ht⟩ := kahnLoop_schedule_prefix g true fuel
    { indeg := (processOutgoing (g.outgoing n) st.indeg rest).1,
      queue := (processOutgoing (g.outgoing n) st.indeg rest).2,
      schedule := if true then st.schedule ++ [n] else st.schedule,
      numVisited := st.numVisited + 1 }
  refine ⟨t, ?_⟩
  rw [ht]
  simp [hsched]

/-- **C2** (confirmed): for every well-formed graph (distinct node ids, edge
destinations exist — both maintained by the `AudioGraph` store) that compiles
successfully, every edge's source node is scheduled strictly before its
destination node: Kahn's algorithm only enqueues a node once the in-degree
decrements of all its in-edges have happened, i.e. after all its sources were
popped. -/
theorem c2_schedule_topological (g : Graph) (cs : CompiledSchedule) (e : Edge)
    (hnodup : g.nodeIds.Nodup)
    (hdst : ∀ e2 ∈ g.edges, e2.dstNode ∈ g.nodeIds)
    (hok : compile g = .ok cs) (he : e ∈ g.edges) :
    ∃ i j, i < j ∧
      (cs.schedule.get? i).map ScheduledNode.id = some e.srcNode ∧
      (cs.schedule.get? j).map ScheduledNode.id = some e.dstNode := by
  obtain ⟨hpre, order, st, hsort, hsolve, hcs⟩ := compile_ok_inv g cs hok
  obtain ⟨hcomplete, hordered⟩ := kahn_final g hnodup hdst order hsort
  have hdmem : e.dstNode ∈ order := hcomplete _ (hdst e he)
  have hsl := hordered e he hdmem
  have hids : cs.schedule.map (fun sn => sn.id) = order := by
    rw [hcs]
    simpa using solveOrder_ids g order _ st hsolve
  obtain ⟨i, j, hij, ha, hb⟩ := pair_sublist_get? e.srcNode e.dstNode order hsl
  rw [← hids, List.get?_map] at ha hb
  exact ⟨i, j, hij, ha, hb⟩

theorem c2_schedule_topological_witness :
    ∃ i j, i < j ∧
      (fanInSchedule.schedule.get? i).map ScheduledNode.id = some 0 ∧
      (fanInSchedule.schedule.get? j).map ScheduledNode.id = some 1 :=
  c2_schedule_topological fanInGraph.toGraph fanInSchedule ⟨0, 0, 0, 1, 0⟩
    (by decide) (by decide) rfl (by decide)

/-- **C4** (amended): the first `ScheduledNode` of every successful compile is
the `graph_in` sentinel (it occupies the first arena slot and has no incoming
edges, so it heads the initial queue and is popped first); the *last*
scheduled node need not be `graph_out` (see the counterexample). -/
theorem c4_amended_graph_in_first (g : Graph) (cs : CompiledSchedule)
    (hhead : g.nodes.head?.map NodeEntry.id = some g.graphInId)
    (hnoin : ∀ e ∈ g.edges, e.dstNode ≠ g.graphInId)
    (hok : compile g = .ok cs) :
    cs.schedule.head?.map ScheduledNode.id = some g.graphInId := by
  obtain ⟨hpre, order, st, hsort, hsolve, hcs⟩ := compile_ok_inv g cs hok
  obtain ⟨horder, _, _⟩ := sortTopologically_ok_inv g order hsort
  obtain ⟨n0, rest0, hnodes⟩ : ∃ n0 r, g.nodes = n0 :: r := by
    cases hn : g.nodes with
    | nil =>
      rw [hn] at hhead
      simp at hhead
    | cons a l => exact ⟨a, l, rfl⟩
  have hn0 : n0.id = g.graphInId := by
    rw [hnodes] at hhead
    simpa using hhead
  have hinc : g.incoming n0.id = [] := by
    unfold Graph.incoming
    rw [List.filter_eq_nil_iff]
    intro e he
    simp only [decide_eq_true_eq]
    rw [hn0]
    exact hnoin e he
  have hq0 : (initKahnState g).queue = g.graphInId ::
      (rest0.filter (fun n => (g.incoming n.id).isEmpty)).map (fun n => n.id) := by
    show initQueue g = _
    unfold initQueue
    rw [hnodes, List.filter_cons_of_pos, List.map_cons, hn0]
    simp [hinc]
  have hids : cs.schedule.map (fun sn => sn.id) = order := by
    rw [hcs]
    simpa using solveOrder_ids g order _ st hsolve
  have hfe : kahnFuel g = (g.nodes.length + g.edges.length) + 1 := rfl
  obtain ⟨t, ht⟩ := kahnLoop_head_of_queue g (g.nodes.length + g.edges.length)
    (initKahnState g) g.graphInId _ hq0 rfl
  rw [← hfe] at ht
  have hord2 : order = g.graphInId :: t := by rw [horder, ht]
  have hh : (cs.schedule.map (fun sn => sn.id)).head? = some g.graphInId := by
    rw [hids, hord2]
    rfl
  rw [List.head?_map] at hh
  exact hh

theorem c4_amended_graph_in_first_witness :
    isolatedSinkSchedule.schedule.head?.map ScheduledNode.id = some 0 :=
  c4_amended_graph_in_first isolatedSinkGraph.toGraph isolatedSinkSchedule
    (by decide) (by decide) rfl

/-- **C6** (confirmed): every buffer index in every `ScheduledNode` of a
successful compile is strictly below `numBuffers` (the allocator's
high-water-mark `count`), the size of the owned buffer pool and of the
parallel silence-flag vector: this is exactly the bound the `get_unchecked`
accesses in `buffer_mut` and `silence_mask_mut` (used by
`prepare_graph_inputs`, `process` and `read_graph_outputs`, which index the
pool only through these assignments) rely on. -/
theorem c6_buffer_indices_bounded (g : Graph) (cs : CompiledSchedule)
    (hok : compile g = .ok cs) :
    ∀ sn ∈ cs.schedule,
      (∀ a ∈ sn.inputBuffers, a.bufferIndex < cs.numBuffers) ∧
      (∀ a ∈ sn.outputBuffers, a.bufferIndex < cs.numBuffers) := by
  obtain ⟨hpre, order, st, hsort, hsolve, hcs⟩ := compile_ok_inv g cs hok
  have hb0 : SolveBound ⟨⟨[], 0, 0⟩, [], []⟩ := by
    refine ⟨?_, ?_, ?_⟩ <;> intro x hx <;> cases hx
  obtain ⟨⟨_, _, hsched⟩, _⟩ := solveOrder_bound g order _ st hsolve hb0
  subst hcs
  intro sn hsn
  exact hsched sn hsn

theorem c6_buffer_indices_bounded_witness :
    (∀ a ∈ (⟨1, [⟨0, false, 0⟩, ⟨0, false, 0⟩], []⟩ : ScheduledNode).inputBuffers,
        a.bufferIndex < fanInSchedule.numBuffers) ∧
    (∀ a ∈ (⟨1, [⟨0, false, 0⟩, ⟨0, false, 0⟩], []⟩ : ScheduledNode).outputBuffers,
        a.bufferIndex < fanInSchedule.numBuffers) :=
  c6_buffer_indices_bounded fanInGraph.toGraph fanInSchedule rfl
    ⟨1, [⟨0, false, 0⟩, ⟨0, false, 0⟩], []⟩ (by decide)

/-- **C1** (code bug): the claim states that within each `ScheduledNode` the
buffer indices of the input and output assignments are pairwise distinct,
explicitly including nodes whose two input ports are fed by the same source
output port — which is also what the `SAFETY` comment of `buffer_mut` in
`compiler/schedule.rs` asserts.  Evaluating the compiler at the failing input
(one source output port fanned out to both input ports of `graph_out`, a
graph reachable through the public `connect` API) shows both input
assignments of the scheduled `graph_out` node receive buffer index 0. -/
theorem c1_same_source_fan_in_aliases_buffers :
    (((AudioGraph.new 1 2).connect 0 0 1 0 false).1 = .ok 0) ∧
    ((((AudioGraph.new 1 2).connect 0 0 1 0 false).2.connect 0 0 1 1 false).1 = .ok 1) ∧
    compile fanInGraph.toGraph =
      .ok ⟨[⟨0, [], [⟨0, 0⟩]⟩, ⟨1, [⟨0, false, 0⟩, ⟨0, false, 0⟩], []⟩], 1⟩ ∧
    ((compile fanInGraph.toGraph).toOption.bind (fun cs => cs.schedule.get? 1)).map
        (fun sn => sn.inputBuffers.map InBufferAssignment.bufferIndex) = some [0, 0] :=
  ⟨rfl, rfl, rfl, rfl⟩

/-- **C4** (counterexample): a graph with an isolated extra node (no ports,
added after the sentinels) compiles successfully, yet the last
`ScheduledNode` is the extra node (id 2), not the `graph_out` sentinel
(id 1): Kahn's queue receives all in-degree-0 nodes in arena order, so
`graph_out` is popped before the later-inserted isolated node. -/
theorem c4_counterexample_last_not_graph_out :
    compile isolatedSinkGraph.toGraph =
      .ok ⟨[⟨0, [], []⟩, ⟨1, [], []⟩, ⟨2, [], []⟩], 0⟩ ∧
    ((compile isolatedSinkGraph.toGraph).toOption.bind
        (fun cs => cs.schedule.getLast?.map ScheduledNode.id)) = some 2 ∧
    isolatedSinkGraph.toGraph.graphOutId = 1 :=
  ⟨rfl, rfl, rfl⟩

/-- **C5** (code bug): on the cycle-detected-after-tentative-insert path,
`AudioGraph::connect` removes the new edge from the edge arena but leaves the
new `(dst_node, dst_port)` entry in `connected_input_ports` and the new
4-tuple in `existing_edges`, contradicting its own documentation ("If this
returns an error, then the audio graph has not been modified").  Evaluated at
the failing input `connect(3, 0, 2, 0, true)` on the 2→3 chain. -/
theorem c5_cycle_rollback_leaves_stale_entries :
    cycleProbeResult.1 = .err .cycleDetected ∧
    cycleProbeResult.2.edges = cycleProbeBefore.edges ∧
    cycleProbeResult.2.nodes = cycleProbeBefore.nodes ∧
    (2, 0) ∈ cycleProbeResult.2.connectedInputPorts ∧
    (2, 0) ∉ cycleProbeBefore.connectedInputPorts ∧
    cycleProbeResult.2.existingEdges ≠ cycleProbeBefore.existingEdges := by
  decide

/-- **C7** (counterexample): `add_node(65, 65, ...)` does not fail — the
source performs no port-count validation and unconditionally inserts the
entry and returns its id. -/
theorem c7_counterexample_add_node_accepts_65 :
    ((AudioGraph.new 1 1).addNode 65 65).1 = 2 ∧
    ((AudioGraph.new 1 1).addNode 65 65).2.nodes =
      (AudioGraph.new 1 1).nodes ++ [⟨2, 65, 65⟩] := by
  decide

/-- **C7** (amended): `add_node` always succeeds and adds the node, for any
port counts; the 64-port limit is instead enforced by `assert!`s in
`GraphIR::preprocess`, so a later compile of a graph containing a node with
more than 64 inputs or outputs panics. -/
theorem c7_amended_limit_checked_at_compile (g : AudioGraph) (nIn nOut : Nat)
    (cg : Graph) (hbig : ∃ n ∈ cg.nodes, 64 < n.numInputs ∨ 64 < n.numOutputs) :
    (g.addNode nIn nOut).2.nodes = g.nodes ++ [⟨g.nextNodeId, nIn, nOut⟩] ∧
    compile cg = .error .assertFailed := by
  refine ⟨rfl, ?_⟩
  have hC : cg.nodes.all
      (fun n => decide (n.numInputs ≤ 64) && decide (n.numOutputs ≤ 64)) = false := by
    obtain ⟨n, hn, hlt⟩ := hbig
    by_contra hne
    have hall : cg.nodes.all
        (fun n => decide (n.numInputs ≤ 64) && decide (n.numOutputs ≤ 64)) = true := by
      revert hne
      cases cg.nodes.all (fun n => decide (n.numInputs ≤ 64) && decide (n.numOutputs ≤ 64)) <;>
        simp
    rw [List.all_eq_true] at hall
    have hboth := hall n hn
    simp only [Bool.and_eq_true, decide_eq_true_eq] at hboth
    omega
  have hchecks : preprocessChecks cg = false := by
    unfold preprocessChecks
    rw [hC]
    simp
  have hpre : preprocessE cg = .error .assertFailed := by
    simp [preprocessE, hchecks]
  simp only [compile, hpre]
  rfl

theorem c7_amended_witness :
    (((AudioGraph.new 1 1).addNode 65 65).2.nodes =
      (AudioGraph.new 1 1).nodes ++ [⟨2, 65, 65⟩]) ∧
    compile ((AudioGraph.new 1 1).addNode 65 65).2.toGraph = .error .assertFailed :=
  c7_amended_limit_checked_at_compile (AudioGraph.new 1 1) 65 65
    ((AudioGraph.new 1 1).addNode 65 65).2.toGraph ⟨⟨2, 65, 65⟩, by decide, by decide⟩

/-- **C8** (confirmed): `connect` on a single existing node with both port
indices in range returns `CycleDetected` and leaves the graph untouched —
the self-loop check `src_node.idx == dst_node.idx` runs before any mutation
and does not consult `check_for_cycles`, and the error variant is
`CycleDetected` (there is no dedicated self-loop variant). -/
theorem c8_self_loop_rejected (g : AudioGraph) (n srcPort dstPort : Nat) (cfc : Bool)
    (entry : NodeEntry) (hfind : g.nodes.find? (fun x => x.id = n) = some entry)
    (hsp : srcPort < entry.numOutputs) (hdp : dstPort < entry.numInputs) :
    g.connect n srcPort n dstPort cfc = (.err .cycleDetected, g) := by
  unfold AudioGraph.connect
  rw [hfind]
  simp [Nat.not_le.mpr hsp, Nat.not_le.mpr hdp]

theorem c8_self_loop_rejected_witness :
    c8WitnessGraph.connect 2 1 2 0 false = (.err .cycleDetected, c8WitnessGraph) :=
  c8_self_loop_rejected c8WitnessGraph 2 1 0 false ⟨2, 2, 3⟩
    (by decide) (by decide) (by decide)

/-- **C9** (counterexample): querying channel 64 of the all-silent mask and
marking channel 64 silent are not defined: the `0b1 << 64` shift overflows (a
panic in debug builds) instead of clamping to "not silent". -/
theorem c9_counterexample_ops_overflow :
    SilenceMask.isChannelSilent (SilenceMask.newAllSilent 64) 64 = none ∧
    SilenceMask.setChannel SilenceMask.NONE_SILENT 64 true = none := by
  constructor <;> rfl

/-- **C9** (amended): only `new_all_silent` is total for out-of-range
channel counts — it clamps `n ≥ 64` to `u64::MAX`, i.e. *all 64 representable
channels silent* (not "no channel silent"); `is_channel_silent` and
`set_channel` require `i < 64` and overflow (panic) for `i ≥ 64`; for
`i < 64` both are defined. -/
theorem c9_amended_ops (m : SilenceMask) (n i : Nat) (b : Bool)
    (hn : 64 ≤ n) (hi : 64 ≤ i) :
    SilenceMask.newAllSilent n = ⟨u64Max⟩ ∧
    m.isChannelSilent i = none ∧
    m.setChannel i b = none ∧
    (∀ j, j < 64 → (m.isChannelSilent j).isSome ∧ (m.setChannel j b).isSome) := by
  refine ⟨?_, ?_, ?_, ?_⟩
  · simp [SilenceMask.newAllSilent, hn]
  · simp [SilenceMask.isChannelSilent, SilenceMask.shlOne, Nat.not_lt.mpr hi]
  · simp [SilenceMask.setChannel, SilenceMask.shlOne, Nat.not_lt.mpr hi]
  · intro j hj
    constructor <;>
      simp [SilenceMask.isChannelSilent, SilenceMask.setChannel, SilenceMask.shlOne, hj]

theorem c9_amended_ops_witness :
    SilenceMask.newAllSilent 64 = ⟨u64Max⟩ ∧
    SilenceMask.NONE_SILENT.isChannelSilent 64 = none ∧
    SilenceMask.NONE_SILENT.setChannel 64 true = none ∧
    (∀ j, j < 64 → (SilenceMask.NONE_SILENT.isChannelSilent j).isSome ∧
      (SilenceMask.NONE_SILENT.setChannel j true).isSome) :=
  c9_amended_ops SilenceMask.NONE_SILENT 64 64 true (le_refl 64) (le_refl 64)

/-- **C3** (confirmed): for every well-formed graph (distinct node ids and
edge ids, edge destinations existing with in-range destination ports — all
maintained by the `AudioGraph` store) that compiles successfully, every
edge's two endpoints record the *same* buffer index: the source node's
output-port loop acquires one buffer per port and deposits its handle in the
assignment table under each outgoing edge's id, and the destination node's
input-port loop later consumes exactly that entry, copying its index into
the destination port's input assignment. -/
theorem c3_edge_buffers_match (g : Graph) (cs : CompiledSchedule) (e : Edge)
    (hnodup : g.nodeIds.Nodup)
    (hdst : ∀ e2 ∈ g.edges, e2.dstNode ∈ g.nodeIds)
    (hedgeids : g.edges.Pairwise (fun a b => a.id ≠ b.id))
    (hports : ∀ e2 ∈ g.edges, ∀ de, g.findNode e2.dstNode = some de →
      e2.dstPort < de.numInputs)
    (hok : compile g = .ok cs) (he : e ∈ g.edges) :
    ∃ k, outIdxAt cs.schedule e.srcNode e.srcPort = some k ∧
      inIdxAt cs.schedule e.dstNode e.dstPort = some k := by
  obtain ⟨hpre, order, st, hsort, hsolve, hcs⟩ := compile_ok_inv g cs hok
  have hnd := sortTopologically_nodup g hnodup hdst order hsort
  have htr0 : SolveTrack g [] ⟨⟨[], 0, 0⟩, [], []⟩ := by
    refine ⟨rfl, ?_, ?_⟩
    · intro k h hget
      cases hget
    · intro e2 he2 hd
      cases hd
  have htr := solveOrder_track g hedgeids hports order [] _ st
    (fun x _ => List.not_mem_nil x) hnd htr0 hsolve
  obtain ⟨hids, htab2, hdone⟩ := htr
  obtain ⟨hcomplete, _⟩ := kahn_final g hnodup hdst order hsort
  have hdmem : e.dstNode ∈ ([] : List Nat) ++ order := hcomplete _ (hdst e he)
  obtain ⟨k, hk1, hk2⟩ := hdone e he hdmem
  subst hcs
  exact ⟨k, hk1, hk2⟩

theorem c3_edge_buffers_match_witness :
    ∃ k, outIdxAt fanInSchedule.schedule 0 0 = some k ∧
      inIdxAt fanInSchedule.schedule 1 0 = some k :=
  c3_edge_buffers_match fanInGraph.toGraph fanInSchedule ⟨0, 0, 0, 1, 0⟩
    (by decide) (by decide) (by decide)
    (by
      intro e2 he2 de hde
      fin_cases he2 <;>
        · injection hde with hde
          rw [← hde]
          decide)
    rfl (by decide)

/-- **C10** (confirmed): a `process_interleaved` call with `frames = 0` on a
running processor — one the pending messages do not stop: either a schedule
is installed (so no poll happens), or draining the message queue leaves it
running — zero-fills the entire output slice, returns the `Ok` status (not
`DropProcessor`), and runs no scheduled node (zero blocks are processed, the
graph DSP is never invoked). -/
theorem c10_zero_frames_zeros_and_ok (st : ProcState) (input output : List Float)
    (numInChannels numOutChannels : Nat) (dsp : Nat → Nat → Bool → List Float)
    (hrun : st.running = true)
    (hpoll : st.scheduleData.isSome ∨
      ∃ stp, pollMessages st = some stp ∧ stp.running = true) :
    ∃ st1, processInterleaved st input output numInChannels numOutChannels 0 dsp =
      some (st1, List.replicate output.length (0.0 : Float),
        FirewheelProcessorStatus.ok, 0) := by
  rcases hpoll with hs | ⟨stp, hp, hrp⟩
  · obtain ⟨d, hd⟩ := Option.isSome_iff_exists.mp hs
    exact ⟨st, by simp [processInterleaved, hrun, hd]⟩
  · cases hsd : st.scheduleData with
    | some d => exact ⟨st, by simp [processInterleaved, hrun, hsd]⟩
    | none => exact ⟨stp, by simp [processInterleaved, hrun, hsd, hp, hrp]⟩

theorem c10_zero_frames_zeros_and_ok_witness :
    ∃ st1, processInterleaved ⟨true, none, [], 4, [], []⟩ [] [1.0, 2.0] 0 0 0
        (fun _ _ _ => []) =
      some (st1, List.replicate 2 (0.0 : Float), FirewheelProcessorStatus.ok, 0) :=
  c10_zero_frames_zeros_and_ok ⟨true, none, [], 4, [], []⟩ [] [1.0, 2.0] 0 0
    (fun _ _ _ => []) rfl
    (Or.inr ⟨⟨true, none, [], 4, [], []⟩, rfl, rfl⟩)

end Firewheel
